import Mathlib

/-!
Shallow embedding of the `slake` snake-game engine (`src/snake.rs`,
`src/random.rs`).  Rust `isize` coordinates become `Int`, `usize` counters
become `Nat`, `Vec`/`VecDeque` become `List` (front of the `VecDeque` is the
head of the list), and the seeded PRNG becomes an explicit stream of values
together with a cursor.  The `crate::log` call in `end_game` is modelled by
recording the human-readable reason in a `last_message` field.
-/

namespace Slake

/-- Integer 2D coordinate, from `struct Vector(pub isize, pub isize)`. -/
structure Vector where
  x : Int
  y : Int
deriving DecidableEq, Repr

instance : Inhabited Vector := ⟨⟨0, 0⟩⟩

/-- Componentwise addition, from `impl Add for &Vector`. -/
def Vector.add (a b : Vector) : Vector := ⟨a.x + b.x, a.y + b.y⟩

/-- The four movement directions, from `enum Direction`. -/
inductive Direction where
  | Up
  | Right
  | Down
  | Left
deriving DecidableEq, Repr

/-- Rust's `impl Default for Direction` returns `Left`. -/
instance : Inhabited Direction := ⟨Direction.Left⟩

/-- Unit vector of a direction, from `Direction::to_vector`. -/
def Direction.to_vector : Direction → Vector
  | .Up => ⟨0, -1⟩
  | .Right => ⟨1, 0⟩
  | .Down => ⟨0, 1⟩
  | .Left => ⟨-1, 0⟩

/-- Reversal of a direction, from `Direction::opposite`. -/
def Direction.opposite : Direction → Direction
  | .Up => .Down
  | .Right => .Left
  | .Down => .Up
  | .Left => .Right

/-- Index of the first element satisfying `p`, modelling
`vec.iter().position(...)` used by `remove_from_vec`. -/
def position (p : α → Bool) : List α → Option Nat
  | [] => none
  | a :: l => if p a then some 0 else (position p l).map (· + 1)

/-- `Vec::swap_remove(i)`: replace the element at index `i` with the last
element and shorten the vector by one. -/
def swap_remove (l : List α) (i : Nat) : List α :=
  match l.getLast? with
  | none => []
  | some b => (l.set i b).dropLast

/-- `remove_from_vec`: locate `x` and `swap_remove` it, if present. -/
def remove_from_vec [DecidableEq α] (l : List α) (x : α) : List α :=
  match position (fun v => decide (v = x)) l with
  | some i => swap_remove l i
  | none => l

/-- The full game state, from `struct SnakeGame`.  The fields `rand` and
`rand_idx` model the seeded PRNG (see `get_u16`); `last_message` records the
reason string passed to `end_game` (its `crate::log` observability output). -/
structure SnakeGame where
  width : Int
  height : Int
  free_positions : List Vector
  snake : List Vector
  direction : Direction
  next_direction : Direction
  hazards : List Vector
  food : List Vector
  game_over : Bool
  score : Nat
  high_score : Nat
  high_score_display : Nat
  rand : Nat → Nat
  rand_idx : Nat
  last_message : Option String

/-- Modelled from the spec: `random::get_u16` draws the next value of the
seeded PRNG (`prng::Prng16`, an external crate whose code is not in this
repository; the spec promises an infinite, deterministic stream of 16-bit
unsigned integers given the seed).  The stream is modelled as an explicit
function `rand : Nat → Nat`, truncated to 16 bits, with cursor `rand_idx`. -/
def get_u16 (g : SnakeGame) : Nat × SnakeGame :=
  (g.rand g.rand_idx % 65536, { g with rand_idx := g.rand_idx + 1 })

/-- `SnakeGame::end_game`: set the terminal flag, fold the score into the
high score, and record the diagnostic reason. -/
def end_game (g : SnakeGame) (message : String) : SnakeGame :=
  { g with game_over := true,
           high_score := if g.high_score ≤ g.score then g.score else g.high_score,
           last_message := some message }

/-- `SnakeGame::is_within_board`. -/
def is_within_board (g : SnakeGame) (p : Vector) : Bool :=
  decide (0 ≤ p.x) && decide (0 ≤ p.y) && decide (p.x < g.width) && decide (p.y < g.height)

/-- `SnakeGame::push_snake_head`: claim the cell from the free list and cons
it onto the snake. -/
def push_snake_head (g : SnakeGame) (head : Vector) : SnakeGame :=
  { g with free_positions := remove_from_vec g.free_positions head,
           snake := head :: g.snake }

/-- `SnakeGame::pop_snake_tail`: drop the snake's last cell; return it to the
free list unless it is a hazard. -/
def pop_snake_tail (g : SnakeGame) : SnakeGame :=
  let pos := g.snake.getLastI
  if pos ∈ g.hazards then
    { g with snake := g.snake.dropLast }
  else
    { g with snake := g.snake.dropLast,
             free_positions := g.free_positions ++ [pos] }

/-- `SnakeGame::change_direction`: ignore the current direction and its
opposite; otherwise queue the direction for the next tick. -/
def change_direction (g : SnakeGame) (direction : Direction) : SnakeGame :=
  if g.direction = direction ∨ g.direction.opposite = direction then g
  else { g with next_direction := direction }

/-- The board cells in the row-major order produced by the iterator in
`init_free_positions` (`y` outer over `0..height`, `x` inner over `0..width`). -/
def all_cells (g : SnakeGame) : List Vector :=
  (List.range g.height.toNat).flatMap (fun y =>
    (List.range g.width.toNat).map (fun x => Vector.mk (Int.ofNat x) (Int.ofNat y)))

/-- `SnakeGame::init_free_positions`: all board cells, row-major, that hold
no snake, hazard, or food cell. -/
def init_free_positions (g : SnakeGame) : SnakeGame :=
  { g with free_positions :=
      (all_cells g).filter (fun p => decide (p ∉ g.snake ∧ p ∉ g.hazards ∧ p ∉ g.food)) }

/-- `SnakeGame::clear_board`. -/
def clear_board (g : SnakeGame) : SnakeGame :=
  init_free_positions { g with snake := [], hazards := [], food := [] }

/-- `SnakeGame::add_food(number)`: repeat `number` times: if no cell is free,
end the game (kill screen); otherwise move the PRNG-selected free cell into
the food list. -/
def add_food : Nat → SnakeGame → SnakeGame
  | 0, g => g
  | n + 1, g =>
    if g.free_positions.isEmpty then
      add_food n (end_game g "can't believe you made it this far")
    else
      let (v, g1) := get_u16 g
      let position_index := v % g1.free_positions.length
      let pos := g1.free_positions.getD position_index default
      add_food n { g1 with
        free_positions := swap_remove g1.free_positions position_index,
        food := g1.food ++ [pos] }

/-- `SnakeGame::restart`. -/
def restart (g : SnakeGame) : SnakeGame :=
  let g1 := clear_board g
  let tail : Vector := ⟨g.width - 1, g.height / 2⟩
  let g2 := push_snake_head g1 tail
  let head : Vector := ⟨g.width - 2, g.height / 2⟩
  let g3 := push_snake_head g2 head
  let g4 := add_food 1 g3
  { g4 with direction := .Left, next_direction := .Left, game_over := false,
            high_score_display := g4.high_score, score := 0 }

/-- `SnakeGame::tick`. -/
def tick (g : SnakeGame) : SnakeGame :=
  if g.game_over then g
  else
    let g1 := { g with direction := g.next_direction }
    let old_head := g1.snake.headI
    let nh := g1.direction.to_vector.add old_head
    if !(is_within_board g1 nh) then end_game g1 "avoid walls"
    else if nh ∈ g1.snake then end_game g1 "avoid crashing into your own tail"
    else if nh ∈ g1.hazards then end_game g1 "don't slip on the leftovers"
    else
      let g2 := push_snake_head g1 nh
      if nh ∈ g2.food then
        let g3 := { g2 with score := g2.score + 1 }
        let tail_pos := g3.snake.getLastI
        let g4 := { g3 with hazards := g3.hazards ++ [tail_pos] }
        let g5 := { g4 with food := remove_from_vec g4.food nh }
        add_food 1 g5
      else pop_snake_tail g2

/-- The `SnakeGame::default()` state that `new` starts from, carrying the
given dimensions and the PRNG stream `r` obtained from the seed. -/
def initial_game (width height : Int) (r : Nat → Nat) : SnakeGame :=
  { width := width, height := height, free_positions := [], snake := [],
    direction := .Left, next_direction := .Left, hazards := [], food := [],
    game_over := false, score := 0, high_score := 0, high_score_display := 0,
    rand := r, rand_idx := 0, last_message := none }

/-- `SnakeGame::new(width, height)` (the `assert!` bounds become hypotheses of
the theorems below). -/
def new (width height : Int) (r : Nat → Nat) : SnakeGame :=
  restart (initial_game width height r)

/-- Iterated `tick`. -/
def ticks : Nat → SnakeGame → SnakeGame
  | 0, g => g
  | n + 1, g => ticks n (tick g)

/-- The head cell computed by the next `tick` from a running state: queued
direction vector added to the current head. -/
def new_head (g : SnakeGame) : Vector :=
  g.next_direction.to_vector.add g.snake.headI

/-- One driver call: the public mutators a driver issues between restarts. -/
inductive Cmd where
  | tick
  | change_direction (d : Direction)

/-- Apply one driver call. -/
def apply_cmd : Cmd → SnakeGame → SnakeGame
  | .tick, g => tick g
  | .change_direction d, g => change_direction g d

/-- Run a sequence of driver calls, first call first. -/
def run : List Cmd → SnakeGame → SnakeGame
  | [], g => g
  | c :: cs, g => run cs (apply_cmd c g)

/-- The observable state named by the determinism property: snake, food,
hazards, free positions, score and terminal flag. -/
def obs (g : SnakeGame) :
    List Vector × List Vector × List Vector × List Vector × Nat × Bool :=
  (g.snake, g.food, g.hazards, g.free_positions, g.score, g.game_over)

/-- States reachable through the public interface from a well-formed
construction. -/
inductive Reachable : SnakeGame → Prop where
  | new (width height : Int) (r : Nat → Nat) (hw : 5 ≤ width) (hh : 3 ≤ height) :
      Reachable (new width height r)
  | tick {g : SnakeGame} : Reachable g → Reachable (tick g)
  | change_direction {g : SnakeGame} (d : Direction) :
      Reachable g → Reachable (change_direction g d)
  | restart {g : SnakeGame} : Reachable g → Reachable (restart g)

/-! ### Concrete PRNG streams, a full board, and the specification predicates -/

/-- The invariant the engine actually maintains at operation boundaries:
free positions, food and snake are duplicate-free; free positions and food
are disjoint from everything else (the snake and the hazards may overlap:
an eaten tail cell is both); and together the four collections cover
exactly the board.  The snake always keeps at least its two starting
segments. -/
structure Inv (g : SnakeGame) : Prop where
  hw : 5 ≤ g.width
  hh : 3 ≤ g.height
  nd_free : g.free_positions.Nodup
  nd_food : g.food.Nodup
  nd_snake : g.snake.Nodup
  free_snake : ∀ p ∈ g.free_positions, p ∉ g.snake
  free_food : ∀ p ∈ g.free_positions, p ∉ g.food
  free_haz : ∀ p ∈ g.free_positions, p ∉ g.hazards
  food_snake : ∀ p ∈ g.food, p ∉ g.snake
  food_haz : ∀ p ∈ g.food, p ∉ g.hazards
  cover : ∀ p, (p ∈ g.free_positions ∨ p ∈ g.food ∨ p ∈ g.snake ∨ p ∈ g.hazards) ↔
    is_within_board g p = true
  len_snake : 2 ≤ g.snake.length

/-- A horizontal run of `n` cells in row 2 starting at column `a`. -/
def hrow (a : Int) (n : Nat) : List Vector :=
  (List.range n).map (fun i => Vector.mk (a + Int.ofNat i) 2)

/-- Shape of the intermediate states of the 5x5 reference run: the game is
running and heading left, the snake occupies a contiguous run of row 2 with
its head at `(a, 2)` and body extending right up to column 4, hazards sit in
row 2 at columns at least `a + 2`, and at least `f` free cells remain. -/
structure ScenState (a : Int) (f : Nat) (g : SnakeGame) : Prop where
  hw : g.width = 5
  hh : g.height = 5
  hgo : g.game_over = false
  hnd : g.next_direction = Direction.Left
  hsnake : ∃ n : Nat, 2 ≤ n ∧ g.snake = hrow a n ∧ a + n ≤ 5
  hhaz : ∀ p ∈ g.hazards, p.y = 2 ∧ a + 2 ≤ p.x
  hfree : f ≤ g.free_positions.length

/-- Coupling of two states that agree on every field except the raw PRNG
stream, whose 16-bit outputs coincide. -/
structure Rel (g1 g2 : SnakeGame) : Prop where
  width : g1.width = g2.width
  height : g1.height = g2.height
  free_positions : g1.free_positions = g2.free_positions
  snake : g1.snake = g2.snake
  direction : g1.direction = g2.direction
  next_direction : g1.next_direction = g2.next_direction
  hazards : g1.hazards = g2.hazards
  food : g1.food = g2.food
  game_over : g1.game_over = g2.game_over
  score : g1.score = g2.score
  high_score : g1.high_score = g2.high_score
  high_score_display : g1.high_score_display = g2.high_score_display
  rand_idx : g1.rand_idx = g2.rand_idx
  last_message : g1.last_message = g2.last_message
  rand : ∀ k, g1.rand k % 65536 = g2.rand k % 65536

/-- The constantly-zero PRNG stream. -/
def seed0 : Nat → Nat := fun _ => 0

/-- A PRNG stream whose first draw selects index 12 — the cell `(2,2)` of the
free list right after `new 5 5` — and that draws 0 afterwards. -/
def seed12 : Nat → Nat := fun n => if n = 0 then 12 else 0

/-- A PRNG stream whose first two draws select the food cells `(2,2)` and
then `(1,2)`, making the snake eat on two consecutive ticks. -/
def seed1211 : Nat → Nat := fun n => if n = 0 then 12 else if n = 1 then 11 else 0

/-- A concrete state with an exhausted free list, for the kill-screen
scenario. -/
def full_board_game : SnakeGame :=
  { width := 5, height := 5, free_positions := [], snake := [⟨0, 0⟩],
    direction := .Left, next_direction := .Left, hazards := [], food := [],
    game_over := false, score := 0, high_score := 0, high_score_display := 0,
    rand := seed0, rand_idx := 0, last_message := none }

/-! ### Toolkit: `position`, `swap_remove`, `remove_from_vec` -/

theorem swap_remove_eq {l : List α} {b : α} (h : l.getLast? = some b) (i : Nat) :
    swap_remove l i = (l.set i b).dropLast := by
  rw [swap_remove, h]

theorem remove_from_vec_pos_some [DecidableEq α] {l : List α} {x : α} {i : Nat}
    (h : position (fun v => decide (v = x)) l = some i) :
    remove_from_vec l x = swap_remove l i := by
  rw [remove_from_vec, h]

theorem remove_from_vec_pos_none [DecidableEq α] {l : List α} {x : α}
    (h : position (fun v => decide (v = x)) l = none) :
    remove_from_vec l x = l := by
  rw [remove_from_vec, h]

theorem position_some_lt {p : α → Bool} :
    ∀ {l : List α} {i : Nat}, position p l = some i → i < l.length := by
  intro l
  induction l with
  | nil => intro i h; simp [position] at h
  | cons a t ih =>
    intro i h
    rw [position] at h
    by_cases hpa : p a
    · rw [if_pos hpa] at h
      cases h
      simp
    · rw [if_neg hpa] at h
      rcases Option.map_eq_some'.mp h with ⟨j, hj, rfl⟩
      have := ih hj
      simp only [List.length_cons]
      omega

theorem position_eq_none {p : α → Bool} :
    ∀ {l : List α}, position p l = none ↔ ∀ a ∈ l, p a = false := by
  intro l
  induction l with
  | nil => simp [position]
  | cons a t ih =>
    rw [position]
    by_cases hpa : p a
    · rw [if_pos hpa]
      constructor
      · intro h
        exact absurd h (by simp)
      · intro h
        have := h a (by simp)
        rw [this] at hpa
        exact absurd hpa (by simp)
    · rw [if_neg hpa]
      rw [Option.map_eq_none', ih]
      constructor
      · intro h b hb
        rcases List.mem_cons.mp hb with rfl | hbt
        · simpa using hpa
        · exact h b hbt
      · intro h b hb
        exact h b (List.mem_cons_of_mem a hb)

theorem swap_remove_cons_succ (a : α) {t : List α} (i : Nat) (ht : t ≠ []) :
    swap_remove (a :: t) (i + 1) = a :: swap_remove t i := by
  have hlast : t.getLast? = some (t.getLast ht) := List.getLast?_eq_getLast t ht
  have hlast' : (a :: t).getLast? = some (t.getLast ht) := by
    cases t with
    | nil => exact absurd rfl ht
    | cons b u => rw [List.getLast?_cons_cons, ← hlast]
  have hne : t.set i (t.getLast ht) ≠ [] := by
    have h1 : (t.set i (t.getLast ht)).length = t.length := List.length_set t i _
    have h2 : 0 < t.length := List.length_pos.mpr ht
    exact List.ne_nil_of_length_pos (by omega)
  rw [swap_remove_eq hlast' (i + 1), swap_remove_eq hlast i, List.set_cons_succ,
    List.dropLast_cons_of_ne_nil hne]

theorem swap_remove_concat_zero (a : α) (L : List α) (b : α) :
    swap_remove (a :: (L ++ [b])) 0 = b :: L := by
  have h1 : (a :: (L ++ [b])).getLast? = some b := by
    rw [show a :: (L ++ [b]) = (a :: L) ++ [b] by simp, List.getLast?_concat]
  rw [swap_remove_eq h1 0]
  have h2 : (a :: (L ++ [b])).set 0 b = b :: (L ++ [b]) := rfl
  rw [h2, show b :: (L ++ [b]) = (b :: L) ++ [b] by simp, List.dropLast_concat]

theorem swap_remove_perm :
    ∀ (l : List α) (i : Nat), i < l.length → (swap_remove l i).Perm (l.eraseIdx i) := by
  intro l
  induction l with
  | nil => intro i h; simp at h
  | cons a t ih =>
    intro i h
    match i with
    | 0 =>
      rcases List.eq_nil_or_concat t with rfl | ⟨L, b, rfl⟩
      · simp [swap_remove]
      · simp only [List.concat_eq_append, List.eraseIdx_cons_zero]
        rw [swap_remove_concat_zero]
        exact (List.perm_append_singleton b L).symm
    | i + 1 =>
      have hlen : i < t.length := by
        simp only [List.length_cons] at h
        omega
      have ht : t ≠ [] := by
        intro hnil
        rw [hnil] at hlen
        simp at hlen
      rw [swap_remove_cons_succ a i ht, List.eraseIdx_cons_succ]
      exact (ih i hlen).cons a

theorem perm_cons_eraseIdx :
    ∀ (l : List α) (i : Nat) (h : i < l.length), l.Perm (l.get ⟨i, h⟩ :: l.eraseIdx i) := by
  intro l
  induction l with
  | nil => intro i h; simp at h
  | cons a t ih =>
    intro i h
    match i with
    | 0 => simp
    | i + 1 =>
      have hlen : i < t.length := by
        simp only [List.length_cons] at h
        omega
      have step := (ih i hlen).cons a
      rw [List.eraseIdx_cons_succ]
      exact step.trans (List.Perm.swap (t.get ⟨i, hlen⟩) a (t.eraseIdx i))

theorem remove_from_vec_of_not_mem [DecidableEq α] {l : List α} {x : α} (h : x ∉ l) :
    remove_from_vec l x = l := by
  apply remove_from_vec_pos_none
  rw [position_eq_none]
  intro a ha
  simp only [decide_eq_false_iff_not]
  intro hax
  exact absurd (hax ▸ ha) h

theorem remove_from_vec_perm_erase [DecidableEq α] (l : List α) (x : α) :
    (remove_from_vec l x).Perm (l.erase x) := by
  induction l with
  | nil => simp [remove_from_vec, position]
  | cons a t ih =>
    by_cases hax : a = x
    · subst hax
      have hpos : position (fun v => decide (v = a)) (a :: t) = some 0 := by
        simp [position]
      rw [remove_from_vec_pos_some hpos, List.erase_cons_head]
      rcases List.eq_nil_or_concat t with rfl | ⟨L, b, rfl⟩
      · simp [swap_remove]
      · simp only [List.concat_eq_append]
        rw [swap_remove_concat_zero]
        exact (List.perm_append_singleton b L).symm
    · have herase : (a :: t).erase x = a :: t.erase x :=
        List.erase_cons_tail (by simp [hax])
      cases hpos : position (fun v => decide (v = x)) t with
      | none =>
        have hpos' : position (fun v => decide (v = x)) (a :: t) = none := by
          rw [position, if_neg (by simp [hax]), hpos]
          rfl
        rw [remove_from_vec_pos_none hpos', herase]
        have hrw : remove_from_vec t x = t := remove_from_vec_pos_none hpos
        exact (hrw ▸ ih).cons a
      | some i =>
        have hpos' : position (fun v => decide (v = x)) (a :: t) = some (i + 1) := by
          rw [position, if_neg (by simp [hax]), hpos]
          rfl
        have hlen : i < t.length := position_some_lt hpos
        have ht : t ≠ [] := by
          intro hnil
          rw [hnil] at hlen
          simp at hlen
        rw [remove_from_vec_pos_some hpos', swap_remove_cons_succ a i ht, herase]
        have hrw : remove_from_vec t x = swap_remove t i := remove_from_vec_pos_some hpos
        exact (hrw ▸ ih).cons a

theorem remove_from_vec_nodup [DecidableEq α] {l : List α} (h : l.Nodup) (x : α) :
    (remove_from_vec l x).Nodup :=
  ((remove_from_vec_perm_erase l x).nodup_iff).mpr (h.erase x)

theorem remove_from_vec_mem_iff [DecidableEq α] {l : List α} (h : l.Nodup) {x y : α} :
    y ∈ remove_from_vec l x ↔ y ≠ x ∧ y ∈ l := by
  rw [(remove_from_vec_perm_erase l x).mem_iff]
  exact h.mem_erase_iff

theorem remove_from_vec_subset [DecidableEq α] {l : List α} {x y : α}
    (h : y ∈ remove_from_vec l x) : y ∈ l :=
  List.erase_subset x l ((remove_from_vec_perm_erase l x).mem_iff.mp h)

theorem remove_from_vec_length_of_mem [DecidableEq α] {l : List α} {x : α} (h : x ∈ l) :
    (remove_from_vec l x).length = l.length - 1 := by
  rw [(remove_from_vec_perm_erase l x).length_eq]
  exact List.length_erase_of_mem h

/-! ### Toolkit: `getLastI`, `headI`, `dropLast` -/

theorem getLastI_of_ne_nil [Inhabited α] {l : List α} (h : l ≠ []) :
    l.getLastI = l.getLast h := by
  rw [List.getLastI_eq_getLast?, List.getLast?_eq_getLast l h]

theorem getLastI_cons_of_ne_nil [Inhabited α] (a : α) {l : List α} (h : l ≠ []) :
    (a :: l).getLastI = l.getLastI := by
  cases l with
  | nil => exact absurd rfl h
  | cons b u => rw [List.getLastI_eq_getLast?, List.getLastI_eq_getLast?, List.getLast?_cons_cons]

theorem getLastI_mem [Inhabited α] {l : List α} (h : l ≠ []) : l.getLastI ∈ l := by
  rw [getLastI_of_ne_nil h]
  exact List.getLast_mem h

theorem dropLast_append_getLastI [Inhabited α] {l : List α} (h : l ≠ []) :
    l.dropLast ++ [l.getLastI] = l := by
  rw [getLastI_of_ne_nil h]
  exact List.dropLast_append_getLast h

theorem getLastI_not_mem_dropLast [Inhabited α] {l : List α} (h : l ≠ []) (hn : l.Nodup) :
    l.getLastI ∉ l.dropLast := by
  have hdecomp := dropLast_append_getLastI h
  intro hmem
  have : ¬ (l.dropLast ++ [l.getLastI]).Nodup := by
    rw [List.nodup_append]
    intro ⟨_, _, hdisj⟩
    exact hdisj hmem (by simp)
  rw [hdecomp] at this
  exact this hn

theorem mem_dropLast {l : List α} {x : α} (h : x ∈ l.dropLast) : x ∈ l :=
  (List.dropLast_sublist l).mem h

theorem mem_of_mem_dropLast_or_getLastI [Inhabited α] {l : List α} (h : l ≠ []) {x : α} :
    x ∈ l ↔ x ∈ l.dropLast ∨ x = l.getLastI := by
  conv_lhs => rw [← dropLast_append_getLastI h]
  simp

/-! ### Board lemmas -/

theorem is_within_board_iff {g : SnakeGame} {p : Vector} :
    is_within_board g p = true ↔ 0 ≤ p.x ∧ 0 ≤ p.y ∧ p.x < g.width ∧ p.y < g.height := by
  simp [is_within_board, and_assoc]

theorem mem_all_cells {g : SnakeGame} {p : Vector} :
    p ∈ all_cells g ↔ is_within_board g p = true := by
  rw [is_within_board_iff]
  simp only [all_cells, List.mem_flatMap, List.mem_map, List.mem_range]
  constructor
  · rintro ⟨y, hy, x, hx, rfl⟩
    simp only [Int.ofNat_eq_natCast]
    refine ⟨by omega, by omega, by omega, by omega⟩
  · rintro ⟨h1, h2, h3, h4⟩
    refine ⟨p.y.toNat, by omega, p.x.toNat, by omega, ?_⟩
    obtain ⟨px, py⟩ := p
    dsimp only at h1 h2 h3 h4 ⊢
    simp only [Vector.mk.injEq, Int.ofNat_eq_natCast]
    constructor <;> omega

theorem nodup_all_cells (g : SnakeGame) : (all_cells g).Nodup := by
  rw [all_cells, List.nodup_flatMap]
  constructor
  · intro y _
    refine List.Nodup.map ?_ (List.nodup_range _)
    intro a b hab
    simp only [Vector.mk.injEq, Int.ofNat_eq_natCast] at hab
    omega
  · have hp : (List.range g.height.toNat).Pairwise (· ≠ ·) := List.nodup_range _
    refine hp.imp ?_
    intro y₁ y₂ hne p hp₁ hp₂
    simp only [List.mem_map, List.mem_range] at hp₁ hp₂
    obtain ⟨x₁, _, rfl⟩ := hp₁
    obtain ⟨x₂, _, heq⟩ := hp₂
    simp only [Vector.mk.injEq, Int.ofNat_eq_natCast] at heq
    exact hne (by omega)

theorem length_all_cells (g : SnakeGame) :
    (all_cells g).length = g.height.toNat * g.width.toNat := by
  rw [all_cells, List.length_flatMap]
  have hmap : List.map
      (List.length ∘ fun y =>
        (List.range g.width.toNat).map (fun x => Vector.mk (Int.ofNat x) (Int.ofNat y)))
      (List.range g.height.toNat)
      = List.replicate g.height.toNat g.width.toNat := by
    have hfun : (List.length ∘ fun y : Nat =>
        (List.range g.width.toNat).map (fun x => Vector.mk (Int.ofNat x) (Int.ofNat y)))
        = fun _ : Nat => g.width.toNat := by
      funext y
      simp
    rw [hfun, List.map_const', List.length_range]
  rw [hmap, List.sum_replicate, smul_eq_mul]

/-! ### The state invariant -/

theorem inv_end_game {g : SnakeGame} (hv : Inv g) (m : String) : Inv (end_game g m) :=
  ⟨hv.hw, hv.hh, hv.nd_free, hv.nd_food, hv.nd_snake, hv.free_snake, hv.free_food,
   hv.free_haz, hv.food_snake, hv.food_haz, hv.cover, hv.len_snake⟩

theorem add_food_inv : ∀ (n : Nat) {g : SnakeGame}, Inv g → Inv (add_food n g) := by
  intro n
  induction n with
  | zero => intro g hv; exact hv
  | succ n ih =>
    intro g hv
    by_cases hemp : g.free_positions.isEmpty
    · rw [add_food, if_pos hemp]
      exact ih (inv_end_game hv _)
    · rw [add_food, if_neg hemp]
      simp only [get_u16]
      apply ih
      have hne : g.free_positions ≠ [] := List.isEmpty_eq_false.mp (by simpa using hemp)
      have hlen : 0 < g.free_positions.length := List.length_pos.mpr hne
      set idx := g.rand g.rand_idx % 65536 % g.free_positions.length with hidx_def
      have hidx : idx < g.free_positions.length := Nat.mod_lt _ hlen
      set c := g.free_positions.getD idx default with hc_def
      have hc : c = g.free_positions.get ⟨idx, hidx⟩ := by
        rw [hc_def, List.getD_eq_getElem _ _ hidx, List.get_eq_getElem]
      have hpermc : g.free_positions.Perm (c :: g.free_positions.eraseIdx idx) := by
        rw [hc]
        exact perm_cons_eraseIdx _ idx hidx
      have hsw : (swap_remove g.free_positions idx).Perm (g.free_positions.eraseIdx idx) :=
        swap_remove_perm _ idx hidx
      have hcons : (c :: g.free_positions.eraseIdx idx).Nodup := hpermc.nodup_iff.mp hv.nd_free
      have hc_not : c ∉ g.free_positions.eraseIdx idx := (List.nodup_cons.mp hcons).1
      have hnd_erase : (g.free_positions.eraseIdx idx).Nodup := (List.nodup_cons.mp hcons).2
      have hmem_c : c ∈ g.free_positions := by
        rw [hc]
        simp only [List.get_eq_getElem]
        exact List.getElem_mem hidx
      have hmem_free : ∀ q, q ∈ g.free_positions ↔
          q = c ∨ q ∈ g.free_positions.eraseIdx idx := by
        intro q
        rw [hpermc.mem_iff, List.mem_cons]
      have hmem_sw : ∀ q, q ∈ swap_remove g.free_positions idx ↔
          q ∈ g.free_positions.eraseIdx idx := fun q => hsw.mem_iff
      refine ⟨hv.hw, hv.hh, ?_, ?_, hv.nd_snake, ?_, ?_, ?_, ?_, ?_, ?_, hv.len_snake⟩
      · exact hsw.nodup_iff.mpr hnd_erase
      · rw [List.nodup_append]
        exact ⟨hv.nd_food, List.nodup_cons.mpr (by simp), by
          intro q hq hq'
          simp only [List.mem_singleton] at hq'
          exact hv.free_food c hmem_c (hq' ▸ hq)⟩
      · intro p hp
        exact hv.free_snake p ((hmem_free p).mpr (Or.inr ((hmem_sw p).mp hp)))
      · intro p hp
        have hp' : p ∈ g.free_positions.eraseIdx idx := (hmem_sw p).mp hp
        have hpfree : p ∈ g.free_positions := (hmem_free p).mpr (Or.inr hp')
        simp only [List.mem_append, List.mem_singleton]
        rintro (hmem | rfl)
        · exact hv.free_food p hpfree hmem
        · exact hc_not hp'
      · intro p hp
        exact hv.free_haz p ((hmem_free p).mpr (Or.inr ((hmem_sw p).mp hp)))
      · intro p hp
        simp only [List.mem_append, List.mem_singleton] at hp
        rcases hp with hp | hpc
        · exact hv.food_snake p hp
        · rw [hpc]
          exact hv.free_snake c hmem_c
      · intro p hp
        simp only [List.mem_append, List.mem_singleton] at hp
        rcases hp with hp | hpc
        · exact hv.food_haz p hp
        · rw [hpc]
          exact hv.free_haz c hmem_c
      · intro p
        show (p ∈ swap_remove g.free_positions idx ∨ p ∈ g.food ++ [c] ∨
            p ∈ g.snake ∨ p ∈ g.hazards) ↔ is_within_board g p = true
        rw [← hv.cover p]
        simp only [List.mem_append, List.mem_singleton, hmem_sw p, hmem_free p]
        tauto

/-! ### Branch characterizations of `tick` -/

theorem tick_of_game_over {g : SnakeGame} (h : g.game_over = true) : tick g = g := by
  rw [tick, if_pos h]

theorem tick_of_wall {g : SnakeGame} (hgo : g.game_over = false)
    (hW : is_within_board g (new_head g) = false) :
    tick g = end_game { g with direction := g.next_direction } "avoid walls" := by
  have hW2 : is_within_board
      { g with direction := g.next_direction, game_over := false } (new_head g) = false := hW
  simp only [tick, hgo, Bool.false_eq_true, if_false]
  rw [show g.next_direction.to_vector.add g.snake.headI = new_head g from rfl]
  rw [hW2]
  simp

theorem tick_of_self {g : SnakeGame} (hgo : g.game_over = false)
    (hW : is_within_board g (new_head g) = true) (hS : new_head g ∈ g.snake) :
    tick g = end_game { g with direction := g.next_direction }
      "avoid crashing into your own tail" := by
  have hW2 : is_within_board
      { g with direction := g.next_direction, game_over := false } (new_head g) = true := hW
  simp only [tick, hgo, Bool.false_eq_true, if_false]
  rw [show g.next_direction.to_vector.add g.snake.headI = new_head g from rfl]
  rw [hW2]
  simp only [Bool.not_true, Bool.false_eq_true, if_false]
  rw [if_pos hS]

theorem tick_of_hazard {g : SnakeGame} (hgo : g.game_over = false)
    (hW : is_within_board g (new_head g) = true) (hS : new_head g ∉ g.snake)
    (hH : new_head g ∈ g.hazards) :
    tick g = end_game { g with direction := g.next_direction }
      "don't slip on the leftovers" := by
  have hW2 : is_within_board
      { g with direction := g.next_direction, game_over := false } (new_head g) = true := hW
  simp only [tick, hgo, Bool.false_eq_true, if_false]
  rw [show g.next_direction.to_vector.add g.snake.headI = new_head g from rfl]
  rw [hW2]
  simp only [Bool.not_true, Bool.false_eq_true, if_false]
  rw [if_neg hS, if_pos hH]

theorem tick_of_eat {g : SnakeGame} (hgo : g.game_over = false)
    (hW : is_within_board g (new_head g) = true) (hS : new_head g ∉ g.snake)
    (hH : new_head g ∉ g.hazards) (hF : new_head g ∈ g.food) :
    tick g = add_food 1
      { g with direction := g.next_direction,
               free_positions := remove_from_vec g.free_positions (new_head g),
               snake := new_head g :: g.snake,
               hazards := g.hazards ++ [(new_head g :: g.snake).getLastI],
               food := remove_from_vec g.food (new_head g),
               score := g.score + 1 } := by
  have hW2 : is_within_board
      { g with direction := g.next_direction, game_over := false } (new_head g) = true := hW
  simp only [tick, hgo, Bool.false_eq_true, if_false, push_snake_head]
  rw [show g.next_direction.to_vector.add g.snake.headI = new_head g from rfl]
  rw [hW2]
  simp only [Bool.not_true, Bool.false_eq_true, if_false]
  rw [if_neg hS, if_neg hH, if_pos hF]

theorem tick_of_move {g : SnakeGame} (hgo : g.game_over = false)
    (hW : is_within_board g (new_head g) = true) (hS : new_head g ∉ g.snake)
    (hH : new_head g ∉ g.hazards) (hF : new_head g ∉ g.food) :
    tick g = pop_snake_tail
      { g with direction := g.next_direction,
               free_positions := remove_from_vec g.free_positions (new_head g),
               snake := new_head g :: g.snake } := by
  have hW2 : is_within_board
      { g with direction := g.next_direction, game_over := false } (new_head g) = true := hW
  simp only [tick, hgo, Bool.false_eq_true, if_false, push_snake_head]
  rw [show g.next_direction.to_vector.add g.snake.headI = new_head g from rfl]
  rw [hW2]
  simp only [Bool.not_true, Bool.false_eq_true, if_false]
  rw [if_neg hS, if_neg hH, if_neg hF]

/-! ### Preservation of the invariant by `tick` -/

theorem inv_set_direction {g : SnakeGame} (hv : Inv g) (d : Direction) :
    Inv { g with direction := d } :=
  ⟨hv.hw, hv.hh, hv.nd_free, hv.nd_food, hv.nd_snake, hv.free_snake, hv.free_food,
   hv.free_haz, hv.food_snake, hv.food_haz, hv.cover, hv.len_snake⟩

set_option maxHeartbeats 1000000 in
theorem tick_inv {g : SnakeGame} (hv : Inv g) : Inv (tick g) := by
  by_cases hgo : g.game_over = true
  · rw [tick_of_game_over hgo]
    exact hv
  have hgo' : g.game_over = false := by
    revert hgo
    cases g.game_over <;> simp
  have hsne : g.snake ≠ [] := by
    intro h
    have h2 := hv.len_snake
    rw [h] at h2
    simp at h2
  have htmem : g.snake.getLastI ∈ g.snake := getLastI_mem hsne
  by_cases hW : is_within_board g (new_head g) = true
  case neg =>
    have hWf : is_within_board g (new_head g) = false := by
      revert hW
      cases is_within_board g (new_head g) <;> simp
    rw [tick_of_wall hgo' hWf]
    exact inv_end_game (inv_set_direction hv _) _
  case pos =>
  by_cases hS : new_head g ∈ g.snake
  · rw [tick_of_self hgo' hW hS]
    exact inv_end_game (inv_set_direction hv _) _
  by_cases hH : new_head g ∈ g.hazards
  · rw [tick_of_hazard hgo' hW hS hH]
    exact inv_end_game (inv_set_direction hv _) _
  have ht_ne_nh : g.snake.getLastI ≠ new_head g := fun h => hS (h ▸ htmem)
  by_cases hF : new_head g ∈ g.food
  · -- eating tick
    rw [tick_of_eat hgo' hW hS hH hF]
    apply add_food_inv
    have hnf : new_head g ∉ g.free_positions := fun h => hv.free_food _ h hF
    rw [remove_from_vec_of_not_mem hnf, getLastI_cons_of_ne_nil _ hsne]
    refine ⟨hv.hw, hv.hh, hv.nd_free, ?_, ?_, ?_, ?_, ?_, ?_, ?_, ?_, ?_⟩
    · exact remove_from_vec_nodup hv.nd_food _
    · exact List.nodup_cons.mpr ⟨hS, hv.nd_snake⟩
    · intro p hp
      simp only [List.mem_cons]
      rintro (rfl | hps)
      · exact hnf hp
      · exact hv.free_snake p hp hps
    · intro p hp
      rw [remove_from_vec_mem_iff hv.nd_food]
      rintro ⟨_, hpf⟩
      exact hv.free_food p hp hpf
    · intro p hp
      simp only [List.mem_append, List.mem_singleton]
      rintro (hph | rfl)
      · exact hv.free_haz p hp hph
      · exact hv.free_snake _ hp htmem
    · intro p hp
      rw [remove_from_vec_mem_iff hv.nd_food] at hp
      obtain ⟨hpne, hpf⟩ := hp
      simp only [List.mem_cons]
      rintro (rfl | hps)
      · exact hpne rfl
      · exact hv.food_snake p hpf hps
    · intro p hp
      rw [remove_from_vec_mem_iff hv.nd_food] at hp
      obtain ⟨hpne, hpf⟩ := hp
      simp only [List.mem_append, List.mem_singleton]
      rintro (hph | rfl)
      · exact hv.food_haz p hpf hph
      · exact hv.food_snake _ hpf htmem
    · intro p
      show (p ∈ g.free_positions ∨ p ∈ remove_from_vec g.food (new_head g) ∨
          p ∈ new_head g :: g.snake ∨ p ∈ g.hazards ++ [g.snake.getLastI]) ↔
        is_within_board g p = true
      rw [← hv.cover p]
      simp only [remove_from_vec_mem_iff hv.nd_food, List.mem_cons, List.mem_append,
        List.mem_singleton]
      have h1 : p = new_head g → p ∈ g.food := fun h => h ▸ hF
      have h2 : p = g.snake.getLastI → p ∈ g.snake := fun h => h ▸ htmem
      tauto
    · show 2 ≤ (new_head g :: g.snake).length
      simp only [List.length_cons]
      have := hv.len_snake
      omega
  · -- normal move
    rw [tick_of_move hgo' hW hS hH hF]
    have hnfree : new_head g ∈ g.free_positions := by
      rcases (hv.cover (new_head g)).mpr hW with h | h | h | h
      · exact h
      · exact absurd h hF
      · exact absurd h hS
      · exact absurd h hH
    have hnd_drop : g.snake.dropLast.Nodup := (List.dropLast_sublist _).nodup hv.nd_snake
    have hnh_drop : new_head g ∉ g.snake.dropLast := fun h => hS (mem_dropLast h)
    have ht_drop : g.snake.getLastI ∉ g.snake.dropLast :=
      getLastI_not_mem_dropLast hsne hv.nd_snake
    have hsnake_iff : ∀ q, q ∈ g.snake ↔ q ∈ g.snake.dropLast ∨ q = g.snake.getLastI :=
      fun q => mem_of_mem_dropLast_or_getLastI hsne
    have hlen_drop : 2 ≤ (new_head g :: g.snake.dropLast).length := by
      simp only [List.length_cons, List.length_dropLast]
      have := hv.len_snake
      omega
    simp only [pop_snake_tail]
    rw [show (new_head g :: g.snake).getLastI = g.snake.getLastI from
      getLastI_cons_of_ne_nil _ hsne]
    rw [show (new_head g :: g.snake).dropLast = new_head g :: g.snake.dropLast from
      List.dropLast_cons_of_ne_nil hsne]
    by_cases hTH : g.snake.getLastI ∈ g.hazards
    · rw [if_pos hTH]
      refine ⟨hv.hw, hv.hh, ?_, hv.nd_food, ?_, ?_, ?_, ?_, ?_, ?_, ?_, ?_⟩
      · exact remove_from_vec_nodup hv.nd_free _
      · exact List.nodup_cons.mpr ⟨hnh_drop, hnd_drop⟩
      · intro p hp
        rw [remove_from_vec_mem_iff hv.nd_free] at hp
        obtain ⟨hpne, hpf⟩ := hp
        simp only [List.mem_cons]
        rintro (rfl | hps)
        · exact hpne rfl
        · exact hv.free_snake p hpf (mem_dropLast hps)
      · intro p hp
        rw [remove_from_vec_mem_iff hv.nd_free] at hp
        exact hv.free_food p hp.2
      · intro p hp
        rw [remove_from_vec_mem_iff hv.nd_free] at hp
        exact hv.free_haz p hp.2
      · intro p hp
        simp only [List.mem_cons]
        rintro (rfl | hps)
        · exact hF hp
        · exact hv.food_snake p hp (mem_dropLast hps)
      · exact hv.food_haz
      · intro p
        show (p ∈ remove_from_vec g.free_positions (new_head g) ∨ p ∈ g.food ∨
            p ∈ new_head g :: g.snake.dropLast ∨ p ∈ g.hazards) ↔
          is_within_board g p = true
        rw [← hv.cover p]
        simp only [remove_from_vec_mem_iff hv.nd_free, List.mem_cons, hsnake_iff p]
        have h1 : p = new_head g → p ∈ g.free_positions := fun h => h ▸ hnfree
        have h2 : p = g.snake.getLastI → p ∈ g.hazards := fun h => h ▸ hTH
        tauto
      · exact hlen_drop
    · rw [if_neg hTH]
      have ht_not_free : g.snake.getLastI ∉ g.free_positions :=
        fun h => hv.free_snake _ h htmem
      have ht_not_food : g.snake.getLastI ∉ g.food :=
        fun h => hv.food_snake _ h htmem
      refine ⟨hv.hw, hv.hh, ?_, hv.nd_food, ?_, ?_, ?_, ?_, ?_, ?_, ?_, ?_⟩
      · rw [List.nodup_append]
        refine ⟨remove_from_vec_nodup hv.nd_free _, by simp, ?_⟩
        intro q hq hq'
        simp only [List.mem_singleton] at hq'
        rw [remove_from_vec_mem_iff hv.nd_free] at hq
        exact ht_not_free (hq' ▸ hq.2)
      · exact List.nodup_cons.mpr ⟨hnh_drop, hnd_drop⟩
      · intro p hp
        simp only [List.mem_append, List.mem_singleton] at hp
        simp only [List.mem_cons]
        rcases hp with hp | rfl
        · rw [remove_from_vec_mem_iff hv.nd_free] at hp
          obtain ⟨hpne, hpf⟩ := hp
          rintro (rfl | hps)
          · exact hpne rfl
          · exact hv.free_snake p hpf (mem_dropLast hps)
        · rintro (h | hps)
          · exact ht_ne_nh h
          · exact ht_drop hps
      · intro p hp
        simp only [List.mem_append, List.mem_singleton] at hp
        rcases hp with hp | rfl
        · rw [remove_from_vec_mem_iff hv.nd_free] at hp
          exact hv.free_food p hp.2
        · exact ht_not_food
      · intro p hp
        simp only [List.mem_append, List.mem_singleton] at hp
        rcases hp with hp | rfl
        · rw [remove_from_vec_mem_iff hv.nd_free] at hp
          exact hv.free_haz p hp.2
        · exact hTH
      · intro p hp
        simp only [List.mem_cons]
        rintro (rfl | hps)
        · exact hF hp
        · exact hv.food_snake p hp (mem_dropLast hps)
      · exact hv.food_haz
      · intro p
        show (p ∈ remove_from_vec g.free_positions (new_head g) ++ [g.snake.getLastI] ∨
            p ∈ g.food ∨ p ∈ new_head g :: g.snake.dropLast ∨ p ∈ g.hazards) ↔
          is_within_board g p = true
        rw [← hv.cover p]
        simp only [remove_from_vec_mem_iff hv.nd_free, List.mem_cons, List.mem_append,
          List.mem_singleton, hsnake_iff p]
        have h1 : p = new_head g → p ∈ g.free_positions := fun h => h ▸ hnfree
        have h2 : p = g.snake.getLastI → p ∈ g.snake := fun h => h ▸ htmem
        tauto
      · exact hlen_drop

/-! ### Preservation by `restart` and `change_direction`; reachability -/

theorem clear_board_eq (g : SnakeGame) :
    clear_board g = { g with snake := [], hazards := [], food := [],
                             free_positions := all_cells g } := by
  simp only [clear_board, init_free_positions]
  rw [show all_cells { g with snake := [], hazards := [], food := [] } = all_cells g from rfl]
  rw [List.filter_eq_self.mpr (fun a _ => by simp)]

theorem inv_restart_fields {g : SnakeGame} (hv : Inv g) (d d' : Direction) (hsd : Nat) :
    Inv { g with direction := d, next_direction := d', game_over := false,
                 high_score_display := hsd, score := 0 } :=
  ⟨hv.hw, hv.hh, hv.nd_free, hv.nd_food, hv.nd_snake, hv.free_snake, hv.free_food,
   hv.free_haz, hv.food_snake, hv.food_haz, hv.cover, hv.len_snake⟩

theorem restart_inv {g : SnakeGame} (hw : 5 ≤ g.width) (hh : 3 ≤ g.height) :
    Inv (restart g) := by
  have hA : (all_cells g).Nodup := nodup_all_cells g
  have htmem : (⟨g.width - 1, g.height / 2⟩ : Vector) ∈ all_cells g := by
    rw [mem_all_cells, is_within_board_iff]
    refine ⟨?_, ?_, ?_, ?_⟩
    · show (0:Int) ≤ g.width - 1
      omega
    · show (0:Int) ≤ g.height / 2
      omega
    · show g.width - 1 < g.width
      omega
    · show g.height / 2 < g.height
      omega
  have hhdmem : (⟨g.width - 2, g.height / 2⟩ : Vector) ∈ all_cells g := by
    rw [mem_all_cells, is_within_board_iff]
    refine ⟨?_, ?_, ?_, ?_⟩
    · show (0:Int) ≤ g.width - 2
      omega
    · show (0:Int) ≤ g.height / 2
      omega
    · show g.width - 2 < g.width
      omega
    · show g.height / 2 < g.height
      omega
  have hne : (⟨g.width - 2, g.height / 2⟩ : Vector) ≠ ⟨g.width - 1, g.height / 2⟩ := by
    simp only [ne_eq, Vector.mk.injEq, not_and]
    intro h
    omega
  have hnd1 : (remove_from_vec (all_cells g) ⟨g.width - 1, g.height / 2⟩).Nodup :=
    remove_from_vec_nodup hA _
  have hmem1 : ∀ q, q ∈ remove_from_vec (all_cells g) ⟨g.width - 1, g.height / 2⟩ ↔
      q ≠ ⟨g.width - 1, g.height / 2⟩ ∧ q ∈ all_cells g := fun q => remove_from_vec_mem_iff hA
  have hmem2 : ∀ q, q ∈ remove_from_vec
      (remove_from_vec (all_cells g) ⟨g.width - 1, g.height / 2⟩) ⟨g.width - 2, g.height / 2⟩ ↔
      q ≠ ⟨g.width - 2, g.height / 2⟩ ∧ q ≠ ⟨g.width - 1, g.height / 2⟩ ∧ q ∈ all_cells g := by
    intro q
    rw [remove_from_vec_mem_iff hnd1, hmem1 q]
  have hg3 : Inv { g with
      snake := [⟨g.width - 2, g.height / 2⟩, ⟨g.width - 1, g.height / 2⟩],
      hazards := ([] : List Vector), food := ([] : List Vector),
      free_positions := remove_from_vec
        (remove_from_vec (all_cells g) ⟨g.width - 1, g.height / 2⟩)
        ⟨g.width - 2, g.height / 2⟩ } := by
    refine ⟨hw, hh, remove_from_vec_nodup hnd1 _, List.nodup_nil, ?_, ?_,
      fun p _ h => List.not_mem_nil p h, fun p _ h => List.not_mem_nil p h,
      fun p h => absurd h (List.not_mem_nil p), fun p h => absurd h (List.not_mem_nil p),
      ?_, by simp⟩
    · refine List.nodup_cons.mpr ⟨?_, List.nodup_cons.mpr ⟨List.not_mem_nil _, List.nodup_nil⟩⟩
      simp only [List.mem_singleton]
      exact hne
    · intro p hp
      rw [hmem2 p] at hp
      simp only [List.mem_cons, List.not_mem_nil, or_false]
      rintro (h | h)
      · exact hp.1 h
      · exact hp.2.1 h
    · intro p
      show (p ∈ remove_from_vec
          (remove_from_vec (all_cells g) ⟨g.width - 1, g.height / 2⟩)
          ⟨g.width - 2, g.height / 2⟩ ∨ p ∈ ([] : List Vector) ∨
          p ∈ [(⟨g.width - 2, g.height / 2⟩ : Vector), ⟨g.width - 1, g.height / 2⟩] ∨
          p ∈ ([] : List Vector)) ↔ is_within_board g p = true
      rw [← mem_all_cells, hmem2 p]
      simp only [List.not_mem_nil, List.mem_cons, or_false, false_or]
      have h1 : p = (⟨g.width - 2, g.height / 2⟩ : Vector) → p ∈ all_cells g :=
        fun h => h ▸ hhdmem
      have h2 : p = (⟨g.width - 1, g.height / 2⟩ : Vector) → p ∈ all_cells g :=
        fun h => h ▸ htmem
      tauto
  simp only [restart, clear_board_eq, push_snake_head]
  exact inv_restart_fields (add_food_inv 1 hg3) _ _ _

theorem change_direction_inv {g : SnakeGame} (hv : Inv g) (d : Direction) :
    Inv (change_direction g d) := by
  rw [change_direction]
  by_cases h : g.direction = d ∨ g.direction.opposite = d
  · rw [if_pos h]
    exact hv
  · rw [if_neg h]
    exact ⟨hv.hw, hv.hh, hv.nd_free, hv.nd_food, hv.nd_snake, hv.free_snake, hv.free_food,
      hv.free_haz, hv.food_snake, hv.food_haz, hv.cover, hv.len_snake⟩

theorem new_inv (w h : Int) (r : Nat → Nat) (hw : 5 ≤ w) (hh : 3 ≤ h) :
    Inv (new w h r) :=
  restart_inv hw hh

theorem reachable_inv {g : SnakeGame} (h : Reachable g) : Inv g := by
  induction h with
  | new w h r hw hh => exact new_inv w h r hw hh
  | tick _ ih => exact tick_inv ih
  | change_direction d _ ih => exact change_direction_inv ih d
  | restart _ ih => exact restart_inv ih.hw ih.hh

/-- The corrected counting identity that follows from the invariant: free
positions, food, and the set union of snake and hazards partition the board. -/
theorem inv_card {g : SnakeGame} (hv : Inv g) :
    g.free_positions.length + g.food.length + (g.snake ++ g.hazards).dedup.length
      = (g.width * g.height).toNat := by
  have hndL : (g.free_positions ++ (g.food ++ (g.snake ++ g.hazards).dedup)).Nodup := by
    rw [List.nodup_append]
    refine ⟨hv.nd_free, ?_, ?_⟩
    · rw [List.nodup_append]
      refine ⟨hv.nd_food, List.nodup_dedup _, ?_⟩
      intro q hq hq'
      rw [List.mem_dedup, List.mem_append] at hq'
      rcases hq' with h | h
      · exact hv.food_snake q hq h
      · exact hv.food_haz q hq h
    · intro q hq hq'
      rw [List.mem_append] at hq'
      rcases hq' with h | h
      · exact hv.free_food q hq h
      · rw [List.mem_dedup, List.mem_append] at h
        rcases h with h | h
        · exact hv.free_snake q hq h
        · exact hv.free_haz q hq h
  have hmemL : ∀ a, a ∈ g.free_positions ++ (g.food ++ (g.snake ++ g.hazards).dedup) ↔
      a ∈ all_cells g := by
    intro a
    rw [mem_all_cells, ← hv.cover a]
    simp only [List.mem_append, List.mem_dedup]
  have hperm : (g.free_positions ++ (g.food ++ (g.snake ++ g.hazards).dedup)).Perm
      (all_cells g) :=
    (List.perm_ext_iff_of_nodup hndL (nodup_all_cells g)).mpr hmemL
  have hlen := hperm.length_eq
  rw [List.length_append, List.length_append, length_all_cells] at hlen
  have hWH : (g.width * g.height).toNat = g.width.toNat * g.height.toNat := by
    have hw0 : (0:Int) ≤ g.width := by
      have := hv.hw
      omega
    have hh0 : (0:Int) ≤ g.height := by
      have := hv.hh
      omega
    obtain ⟨m, hm⟩ := Int.eq_ofNat_of_zero_le hw0
    obtain ⟨n, hn⟩ := Int.eq_ofNat_of_zero_le hh0
    rw [hm, hn]
    norm_cast
  rw [hWH, Nat.mul_comm]
  omega

/-! ### Frame lemmas for `add_food`, `pop_snake_tail`, `tick` -/

theorem swap_remove_length {l : List α} (h : l ≠ []) (i : Nat) :
    (swap_remove l i).length = l.length - 1 := by
  rw [swap_remove_eq (List.getLast?_eq_getLast l h) i, List.length_dropLast, List.length_set]

theorem remove_from_vec_length_ge [DecidableEq α] (l : List α) (x : α) :
    l.length - 1 ≤ (remove_from_vec l x).length := by
  rw [(remove_from_vec_perm_erase l x).length_eq, List.length_erase]
  split
  · omega
  · omega

theorem add_food_one_of_ne_nil {g : SnakeGame} (hne : g.free_positions ≠ []) :
    add_food 1 g = { g with
      rand_idx := g.rand_idx + 1,
      free_positions := swap_remove g.free_positions
        (g.rand g.rand_idx % 65536 % g.free_positions.length),
      food := g.food ++ [g.free_positions.getD
        (g.rand g.rand_idx % 65536 % g.free_positions.length) default] } := by
  show add_food (0 + 1) g = _
  rw [add_food, if_neg (by rw [List.isEmpty_eq_false.mpr hne]; simp)]
  simp only [get_u16]
  rfl

theorem add_food_frame : ∀ (n : Nat) (g : SnakeGame),
    (add_food n g).snake = g.snake ∧ (add_food n g).hazards = g.hazards ∧
    (add_food n g).score = g.score ∧ (add_food n g).width = g.width ∧
    (add_food n g).height = g.height ∧ (add_food n g).direction = g.direction ∧
    (add_food n g).next_direction = g.next_direction ∧
    (add_food n g).rand = g.rand ∧
    (add_food n g).high_score_display = g.high_score_display := by
  intro n
  induction n with
  | zero => exact fun g => ⟨rfl, rfl, rfl, rfl, rfl, rfl, rfl, rfl, rfl⟩
  | succ n ih =>
    intro g
    rw [add_food]
    by_cases h : g.free_positions.isEmpty
    · rw [if_pos h]
      exact ih (end_game g _)
    · rw [if_neg h]
      simp only [get_u16]
      exact ih _

theorem add_food_game_over_of_ne_nil {g : SnakeGame} (hne : g.free_positions ≠ []) :
    (add_food 1 g).game_over = g.game_over := by
  rw [add_food_one_of_ne_nil hne]

theorem pop_snake_tail_frame (g : SnakeGame) :
    (pop_snake_tail g).food = g.food ∧ (pop_snake_tail g).hazards = g.hazards ∧
    (pop_snake_tail g).score = g.score ∧ (pop_snake_tail g).game_over = g.game_over ∧
    (pop_snake_tail g).width = g.width ∧ (pop_snake_tail g).height = g.height ∧
    (pop_snake_tail g).direction = g.direction ∧
    (pop_snake_tail g).next_direction = g.next_direction ∧
    (pop_snake_tail g).rand = g.rand ∧
    (pop_snake_tail g).snake = g.snake.dropLast := by
  simp only [pop_snake_tail]
  by_cases h : g.snake.getLastI ∈ g.hazards
  · rw [if_pos h]
    exact ⟨rfl, rfl, rfl, rfl, rfl, rfl, rfl, rfl, rfl, rfl⟩
  · rw [if_neg h]
    exact ⟨rfl, rfl, rfl, rfl, rfl, rfl, rfl, rfl, rfl, rfl⟩

theorem tick_rand (g : SnakeGame) : (tick g).rand = g.rand := by
  by_cases hgo : g.game_over = true
  · rw [tick_of_game_over hgo]
  have hgo' : g.game_over = false := by
    revert hgo
    cases g.game_over <;> simp
  by_cases hW : is_within_board g (new_head g) = true
  case neg =>
    have hWf : is_within_board g (new_head g) = false := by
      revert hW
      cases is_within_board g (new_head g) <;> simp
    rw [tick_of_wall hgo' hWf]
    rfl
  case pos =>
  by_cases hS : new_head g ∈ g.snake
  · rw [tick_of_self hgo' hW hS]
    rfl
  by_cases hH : new_head g ∈ g.hazards
  · rw [tick_of_hazard hgo' hW hS hH]
    rfl
  by_cases hF : new_head g ∈ g.food
  · rw [tick_of_eat hgo' hW hS hH hF]
    exact (add_food_frame 1 _).2.2.2.2.2.2.2.1
  · rw [tick_of_move hgo' hW hS hH hF]
    exact (pop_snake_tail_frame _).2.2.2.2.2.2.2.2.1

theorem change_direction_rand (g : SnakeGame) (d : Direction) :
    (change_direction g d).rand = g.rand := by
  rw [change_direction]
  by_cases h : g.direction = d ∨ g.direction.opposite = d
  · rw [if_pos h]
  · rw [if_neg h]

/-! ### A closed form for `restart` -/

theorem restart_char {g : SnakeGame} (hw : 5 ≤ g.width) (hh : 3 ≤ g.height) :
    restart g = { g with
      snake := [⟨g.width - 2, g.height / 2⟩, ⟨g.width - 1, g.height / 2⟩],
      hazards := [],
      free_positions := swap_remove
        (remove_from_vec (remove_from_vec (all_cells g) ⟨g.width - 1, g.height / 2⟩)
          ⟨g.width - 2, g.height / 2⟩)
        (g.rand g.rand_idx % 65536 %
          (remove_from_vec (remove_from_vec (all_cells g) ⟨g.width - 1, g.height / 2⟩)
            ⟨g.width - 2, g.height / 2⟩).length),
      food := [(remove_from_vec (remove_from_vec (all_cells g) ⟨g.width - 1, g.height / 2⟩)
          ⟨g.width - 2, g.height / 2⟩).getD
        (g.rand g.rand_idx % 65536 %
          (remove_from_vec (remove_from_vec (all_cells g) ⟨g.width - 1, g.height / 2⟩)
            ⟨g.width - 2, g.height / 2⟩).length) default],
      direction := Direction.Left, next_direction := Direction.Left, game_over := false,
      high_score_display := g.high_score, score := 0, rand_idx := g.rand_idx + 1 } := by
  have hA : (all_cells g).Nodup := nodup_all_cells g
  have htmem : (⟨g.width - 1, g.height / 2⟩ : Vector) ∈ all_cells g := by
    rw [mem_all_cells, is_within_board_iff]
    refine ⟨?_, ?_, ?_, ?_⟩
    · show (0:Int) ≤ g.width - 1
      omega
    · show (0:Int) ≤ g.height / 2
      omega
    · show g.width - 1 < g.width
      omega
    · show g.height / 2 < g.height
      omega
  have hhdmem : (⟨g.width - 2, g.height / 2⟩ : Vector) ∈ all_cells g := by
    rw [mem_all_cells, is_within_board_iff]
    refine ⟨?_, ?_, ?_, ?_⟩
    · show (0:Int) ≤ g.width - 2
      omega
    · show (0:Int) ≤ g.height / 2
      omega
    · show g.width - 2 < g.width
      omega
    · show g.height / 2 < g.height
      omega
  have hne : (⟨g.width - 2, g.height / 2⟩ : Vector) ≠ ⟨g.width - 1, g.height / 2⟩ := by
    simp only [ne_eq, Vector.mk.injEq, not_and]
    intro h
    omega
  have hlenA : 15 ≤ (all_cells g).length := by
    rw [length_all_cells]
    have h3 : 3 ≤ g.height.toNat := by omega
    have h5 : 5 ≤ g.width.toNat := by omega
    calc 15 = 3 * 5 := rfl
    _ ≤ g.height.toNat * g.width.toNat := Nat.mul_le_mul h3 h5
  have hhd1 : (⟨g.width - 2, g.height / 2⟩ : Vector) ∈
      remove_from_vec (all_cells g) ⟨g.width - 1, g.height / 2⟩ :=
    (remove_from_vec_mem_iff hA).mpr ⟨hne, hhdmem⟩
  have hlen1 : (remove_from_vec (all_cells g) ⟨g.width - 1, g.height / 2⟩).length
      = (all_cells g).length - 1 := remove_from_vec_length_of_mem htmem
  have hlen2 : (remove_from_vec
      (remove_from_vec (all_cells g) ⟨g.width - 1, g.height / 2⟩)
      ⟨g.width - 2, g.height / 2⟩).length = (all_cells g).length - 2 := by
    rw [remove_from_vec_length_of_mem hhd1, hlen1]
    omega
  have hne2 : remove_from_vec
      (remove_from_vec (all_cells g) ⟨g.width - 1, g.height / 2⟩)
      ⟨g.width - 2, g.height / 2⟩ ≠ [] := by
    apply List.ne_nil_of_length_pos
    rw [hlen2]
    omega
  simp only [restart, clear_board_eq, push_snake_head]
  rw [add_food_one_of_ne_nil hne2]
  rfl

/-! ### The 5x5 reference scenario -/

theorem hrow_length (a : Int) (n : Nat) : (hrow a n).length = n := by
  rw [hrow, List.length_map, List.length_range]

theorem hrow_succ (a : Int) (n : Nat) : hrow a (n + 1) = ⟨a, 2⟩ :: hrow (a + 1) n := by
  rw [hrow, hrow, List.range_succ_eq_map]
  simp only [List.map_cons, List.map_map]
  congr 1
  · simp only [Vector.mk.injEq, Int.ofNat_eq_natCast]
    exact ⟨by omega, trivial⟩
  · apply List.map_congr_left
    intro i _
    simp only [Function.comp_apply, Vector.mk.injEq, Int.ofNat_eq_natCast]
    exact ⟨by push_cast; omega, trivial⟩

theorem hrow_concat (a : Int) (n : Nat) : hrow a (n + 1) = hrow a n ++ [⟨a + n, 2⟩] := by
  rw [hrow, hrow, show n + 1 = Nat.succ n from rfl, List.range_succ, List.map_append]
  simp [Int.ofNat_eq_natCast]

theorem hrow_getLastI (a : Int) (n : Nat) : (hrow a (n + 1)).getLastI = ⟨a + n, 2⟩ := by
  rw [hrow_concat, List.getLastI_eq_getLast?, List.getLast?_concat]

theorem hrow_dropLast (a : Int) (n : Nat) : (hrow a (n + 1)).dropLast = hrow a n := by
  rw [hrow_concat, List.dropLast_concat]

theorem hrow_ne_nil (a : Int) (n : Nat) : hrow a (n + 1) ≠ [] := by
  rw [hrow_succ]
  exact List.cons_ne_nil _ _

theorem hrow_headI (a : Int) (n : Nat) : (hrow a (n + 1)).headI = ⟨a, 2⟩ := by
  rw [hrow_succ, List.headI_cons]

theorem mk_mem_hrow {x y a : Int} {n : Nat} :
    (⟨x, y⟩ : Vector) ∈ hrow a n ↔ y = 2 ∧ a ≤ x ∧ x < a + n := by
  simp only [hrow, List.mem_map, List.mem_range, Int.ofNat_eq_natCast]
  constructor
  · rintro ⟨i, hi, heq⟩
    simp only [Vector.mk.injEq] at heq
    obtain ⟨h1, h2⟩ := heq
    refine ⟨h2.symm, by omega, by omega⟩
  · rintro ⟨hy, h1, h2⟩
    refine ⟨(x - a).toNat, by omega, ?_⟩
    simp only [Vector.mk.injEq]
    constructor
    · omega
    · omega

theorem scen_step {g : SnakeGame} {a : Int} {f : Nat} (hst : ScenState a f g)
    (ha : 1 ≤ a) (hf : 2 ≤ f) : ScenState (a - 1) (f - 2) (tick g) := by
  obtain ⟨n, hn2, hsnake, hbound⟩ := hst.hsnake
  obtain ⟨m, rfl⟩ : ∃ m, n = m + 1 := ⟨n - 1, by omega⟩
  have hm1 : 1 ≤ m := by omega
  have hsne : g.snake ≠ [] := by
    rw [hsnake]
    exact hrow_ne_nil a m
  have hhead : g.snake.headI = ⟨a, 2⟩ := by
    rw [hsnake, hrow_headI]
  have hnh : new_head g = ⟨a - 1, 2⟩ := by
    rw [new_head, hst.hnd, hhead]
    show Vector.add ⟨-1, 0⟩ ⟨a, 2⟩ = _
    rw [Vector.add]
    simp only [Vector.mk.injEq]
    constructor
    · omega
    · omega
  have hW : is_within_board g (new_head g) = true := by
    rw [hnh, is_within_board_iff, hst.hw, hst.hh]
    refine ⟨?_, ?_, ?_, ?_⟩
    · show (0:Int) ≤ a - 1
      omega
    · show (0:Int) ≤ 2
      omega
    · show a - 1 < 5
      omega
    · show (2:Int) < 5
      omega
  have hS : new_head g ∉ g.snake := by
    rw [hnh, hsnake, mk_mem_hrow]
    rintro ⟨_, h1, _⟩
    omega
  have hH : new_head g ∉ g.hazards := by
    rw [hnh]
    intro hmem
    have h2 := (hst.hhaz _ hmem).2
    have h3 : a + 2 ≤ a - 1 := h2
    omega
  have htail : g.snake.getLastI = ⟨a + m, 2⟩ := by
    rw [hsnake, hrow_getLastI]
  have hsnake_new : new_head g :: g.snake = hrow (a - 1) (m + 2) := by
    rw [hnh, hsnake, hrow_succ (a - 1) (m + 1), show a - 1 + 1 = a from by omega]
  by_cases hF : new_head g ∈ g.food
  · rw [tick_of_eat hst.hgo hW hS hH hF]
    have hfree5 : f - 1 ≤ (remove_from_vec g.free_positions (new_head g)).length := by
      have h1 := remove_from_vec_length_ge g.free_positions (new_head g)
      have h2 := hst.hfree
      omega
    have hne5 : remove_from_vec g.free_positions (new_head g) ≠ [] := by
      apply List.ne_nil_of_length_pos
      omega
    rw [add_food_one_of_ne_nil hne5]
    rw [getLastI_cons_of_ne_nil _ hsne, htail]
    dsimp only
    refine ⟨hst.hw, hst.hh, hst.hgo, hst.hnd, ⟨m + 2, by omega, ?_, ?_⟩, ?_, ?_⟩
    · exact hsnake_new
    · push_cast
      push_cast at hbound
      omega
    · intro p hp
      simp only [List.mem_append, List.mem_singleton] at hp
      rcases hp with hp | hp
      · have h3 := hst.hhaz p hp
        exact ⟨h3.1, by omega⟩
      · subst hp
        refine ⟨rfl, ?_⟩
        show a - 1 + 2 ≤ a + (m : Int)
        omega
    · show f - 2 ≤ (swap_remove (remove_from_vec g.free_positions (new_head g))
        (g.rand g.rand_idx % 65536 %
          (remove_from_vec g.free_positions (new_head g)).length)).length
      rw [swap_remove_length hne5]
      omega
  · rw [tick_of_move hst.hgo hW hS hH hF]
    simp only [pop_snake_tail]
    rw [getLastI_cons_of_ne_nil _ hsne, htail]
    rw [show (new_head g :: g.snake).dropLast = new_head g :: g.snake.dropLast from
      List.dropLast_cons_of_ne_nil hsne]
    rw [hsnake, hrow_dropLast]
    have hsnake_new2 : new_head g :: hrow a m = hrow (a - 1) (m + 1) := by
      rw [hnh, hrow_succ (a - 1) m, show a - 1 + 1 = a from by omega]
    by_cases hTH : (⟨a + m, 2⟩ : Vector) ∈ g.hazards
    · rw [if_pos hTH]
      refine ⟨hst.hw, hst.hh, hst.hgo, hst.hnd, ⟨m + 1, by omega, ?_, ?_⟩, ?_, ?_⟩
      · exact hsnake_new2
      · push_cast
        push_cast at hbound
        omega
      · intro p hp
        have h3 := hst.hhaz p hp
        exact ⟨h3.1, by omega⟩
      · show f - 2 ≤ (remove_from_vec g.free_positions (new_head g)).length
        have h1 := remove_from_vec_length_ge g.free_positions (new_head g)
        have h2 := hst.hfree
        omega
    · rw [if_neg hTH]
      refine ⟨hst.hw, hst.hh, hst.hgo, hst.hnd, ⟨m + 1, by omega, ?_, ?_⟩, ?_, ?_⟩
      · exact hsnake_new2
      · push_cast
        push_cast at hbound
        omega
      · intro p hp
        have h3 := hst.hhaz p hp
        exact ⟨h3.1, by omega⟩
      · show f - 2 ≤ (remove_from_vec g.free_positions (new_head g) ++
          [(⟨a + (m : Int), 2⟩ : Vector)]).length
        rw [List.length_append]
        have h1 := remove_from_vec_length_ge g.free_positions (new_head g)
        have h2 := hst.hfree
        simp only [List.length_singleton]
        omega

theorem scen_final {g : SnakeGame} {a : Int} {f : Nat} (hst : ScenState a f g)
    (ha : a ≤ 0) :
    (tick g).game_over = true ∧ (tick g).last_message = some "avoid walls" := by
  obtain ⟨n, hn2, hsnake, _⟩ := hst.hsnake
  obtain ⟨m, rfl⟩ : ∃ m, n = m + 1 := ⟨n - 1, by omega⟩
  have hhead : g.snake.headI = ⟨a, 2⟩ := by
    rw [hsnake, hrow_headI]
  have hnh : new_head g = ⟨a - 1, 2⟩ := by
    rw [new_head, hst.hnd, hhead]
    show Vector.add ⟨-1, 0⟩ ⟨a, 2⟩ = _
    rw [Vector.add]
    simp only [Vector.mk.injEq]
    constructor
    · omega
    · omega
  have hWf : is_within_board g (new_head g) = false := by
    rw [hnh]
    rw [show is_within_board g ⟨a - 1, 2⟩ =
      (decide ((0:Int) ≤ a - 1) && decide ((0:Int) ≤ 2) && decide (a - 1 < g.width) &&
       decide ((2:Int) < g.height)) from rfl]
    rw [decide_eq_false (by omega : ¬ (0:Int) ≤ a - 1)]
    simp
  rw [tick_of_wall hst.hgo hWf]
  exact ⟨rfl, rfl⟩

theorem restart_free_length {g : SnakeGame} (hw : 5 ≤ g.width) (hh : 3 ≤ g.height) :
    (restart g).free_positions.length = g.height.toNat * g.width.toNat - 3 := by
  have hA : (all_cells g).Nodup := nodup_all_cells g
  have htmem : (⟨g.width - 1, g.height / 2⟩ : Vector) ∈ all_cells g := by
    rw [mem_all_cells, is_within_board_iff]
    refine ⟨?_, ?_, ?_, ?_⟩
    · show (0:Int) ≤ g.width - 1
      omega
    · show (0:Int) ≤ g.height / 2
      omega
    · show g.width - 1 < g.width
      omega
    · show g.height / 2 < g.height
      omega
  have hhdmem : (⟨g.width - 2, g.height / 2⟩ : Vector) ∈ all_cells g := by
    rw [mem_all_cells, is_within_board_iff]
    refine ⟨?_, ?_, ?_, ?_⟩
    · show (0:Int) ≤ g.width - 2
      omega
    · show (0:Int) ≤ g.height / 2
      omega
    · show g.width - 2 < g.width
      omega
    · show g.height / 2 < g.height
      omega
  have hne : (⟨g.width - 2, g.height / 2⟩ : Vector) ≠ ⟨g.width - 1, g.height / 2⟩ := by
    simp only [ne_eq, Vector.mk.injEq, not_and]
    intro h
    omega
  have hlenA : 15 ≤ (all_cells g).length := by
    rw [length_all_cells]
    have h3 : 3 ≤ g.height.toNat := by omega
    have h5 : 5 ≤ g.width.toNat := by omega
    calc 15 = 3 * 5 := rfl
    _ ≤ g.height.toNat * g.width.toNat := Nat.mul_le_mul h3 h5
  have hhd1 : (⟨g.width - 2, g.height / 2⟩ : Vector) ∈
      remove_from_vec (all_cells g) ⟨g.width - 1, g.height / 2⟩ :=
    (remove_from_vec_mem_iff hA).mpr ⟨hne, hhdmem⟩
  have hlen1 : (remove_from_vec (all_cells g) ⟨g.width - 1, g.height / 2⟩).length
      = (all_cells g).length - 1 := remove_from_vec_length_of_mem htmem
  have hlen2 : (remove_from_vec
      (remove_from_vec (all_cells g) ⟨g.width - 1, g.height / 2⟩)
      ⟨g.width - 2, g.height / 2⟩).length = (all_cells g).length - 2 := by
    rw [remove_from_vec_length_of_mem hhd1, hlen1]
    omega
  have hne2 : remove_from_vec
      (remove_from_vec (all_cells g) ⟨g.width - 1, g.height / 2⟩)
      ⟨g.width - 2, g.height / 2⟩ ≠ [] := by
    apply List.ne_nil_of_length_pos
    rw [hlen2]
    omega
  simp only [restart_char hw hh]
  rw [swap_remove_length hne2, hlen2, length_all_cells]
  have hP : 15 ≤ g.height.toNat * g.width.toNat := by
    have h3 : 3 ≤ g.height.toNat := by omega
    have h5 : 5 ≤ g.width.toNat := by omega
    calc 15 = 3 * 5 := rfl
    _ ≤ g.height.toNat * g.width.toNat := Nat.mul_le_mul h3 h5
  omega

theorem scen_new55 (r : Nat → Nat) : ScenState 3 22 (new 5 5 r) := by
  refine ⟨rfl, rfl, rfl, rfl, ⟨2, by omega, ?_, by omega⟩, ?_, ?_⟩
  · show (new 5 5 r).snake = hrow 3 2
    rfl
  · intro p hp
    rw [show (new 5 5 r).hazards = [] from rfl] at hp
    exact absurd hp (List.not_mem_nil p)
  · have h1 := restart_free_length (g := initial_game 5 5 r)
      (le_refl (5:Int)) ((by omega : (3:Int) ≤ 5))
    have h2 : (initial_game 5 5 r).height.toNat * (initial_game 5 5 r).width.toNat = 25 := rfl
    rw [h2] at h1
    show 22 ≤ (restart (initial_game 5 5 r)).free_positions.length
    rw [h1]

/-! ### Determinism: the state depends on the PRNG stream only through its
16-bit outputs -/

theorem rel_end_game {g1 g2 : SnakeGame} (h : Rel g1 g2) (m : String) :
    Rel (end_game g1 m) (end_game g2 m) := by
  refine ⟨h.width, h.height, h.free_positions, h.snake, h.direction, h.next_direction,
    h.hazards, h.food, rfl, h.score, ?_, h.high_score_display, h.rand_idx, rfl, h.rand⟩
  show (if g1.high_score ≤ g1.score then g1.score else g1.high_score) =
    (if g2.high_score ≤ g2.score then g2.score else g2.high_score)
  rw [h.high_score, h.score]

theorem rel_set_direction {g1 g2 : SnakeGame} (h : Rel g1 g2) :
    Rel { g1 with direction := g1.next_direction }
      { g2 with direction := g2.next_direction } :=
  ⟨h.width, h.height, h.free_positions, h.snake, h.next_direction, h.next_direction,
   h.hazards, h.food, h.game_over, h.score, h.high_score, h.high_score_display,
   h.rand_idx, h.last_message, h.rand⟩

theorem rel_add_food : ∀ (n : Nat) {g1 g2 : SnakeGame}, Rel g1 g2 →
    Rel (add_food n g1) (add_food n g2) := by
  intro n
  induction n with
  | zero => intro g1 g2 h; exact h
  | succ n ih =>
    intro g1 g2 h
    by_cases hemp : g1.free_positions.isEmpty
    · have hemp2 : g2.free_positions.isEmpty = true := by
        rw [← h.free_positions]
        exact hemp
      rw [add_food, add_food, if_pos hemp, if_pos hemp2]
      exact ih (rel_end_game h _)
    · have hemp1 : g1.free_positions.isEmpty = false := by
        revert hemp
        cases g1.free_positions.isEmpty <;> simp
      have hemp2 : g2.free_positions.isEmpty = false := by
        rw [← h.free_positions]
        exact hemp1
      rw [add_food, add_food, if_neg (by rw [hemp1]; simp), if_neg (by rw [hemp2]; simp)]
      simp only [get_u16]
      apply ih
      have hval : g1.rand g1.rand_idx % 65536 = g2.rand g2.rand_idx % 65536 := by
        rw [h.rand_idx]
        exact h.rand g2.rand_idx
      refine ⟨h.width, h.height, ?_, h.snake, h.direction, h.next_direction, h.hazards,
        ?_, h.game_over, h.score, h.high_score, h.high_score_display, ?_,
        h.last_message, h.rand⟩
      · show swap_remove g1.free_positions
            (g1.rand g1.rand_idx % 65536 % g1.free_positions.length)
          = swap_remove g2.free_positions
            (g2.rand g2.rand_idx % 65536 % g2.free_positions.length)
        rw [h.free_positions, hval]
      · show g1.food ++ [g1.free_positions.getD
            (g1.rand g1.rand_idx % 65536 % g1.free_positions.length) default]
          = g2.food ++ [g2.free_positions.getD
            (g2.rand g2.rand_idx % 65536 % g2.free_positions.length) default]
        rw [h.food, h.free_positions, hval]
      · show g1.rand_idx + 1 = g2.rand_idx + 1
        rw [h.rand_idx]

theorem rel_pop_snake_tail {g1 g2 : SnakeGame} (h : Rel g1 g2) :
    Rel (pop_snake_tail g1) (pop_snake_tail g2) := by
  simp only [pop_snake_tail]
  rw [h.snake, h.hazards, h.free_positions]
  by_cases hc : g2.snake.getLastI ∈ g2.hazards
  · rw [if_pos hc, if_pos hc]
    exact ⟨h.width, h.height, rfl, rfl, h.direction, h.next_direction, rfl, h.food,
      h.game_over, h.score, h.high_score, h.high_score_display, h.rand_idx,
      h.last_message, h.rand⟩
  · rw [if_neg hc, if_neg hc]
    exact ⟨h.width, h.height, rfl, rfl, h.direction, h.next_direction, rfl, h.food,
      h.game_over, h.score, h.high_score, h.high_score_display, h.rand_idx,
      h.last_message, h.rand⟩

theorem rel_tick {g1 g2 : SnakeGame} (h : Rel g1 g2) : Rel (tick g1) (tick g2) := by
  have hnh : new_head g1 = new_head g2 := by
    rw [new_head, new_head, h.next_direction, h.snake]
  by_cases hgo : g1.game_over = true
  · rw [tick_of_game_over hgo, tick_of_game_over (by rw [← h.game_over]; exact hgo)]
    exact h
  have hgo1 : g1.game_over = false := by
    revert hgo
    cases g1.game_over <;> simp
  have hgo2 : g2.game_over = false := by
    rw [← h.game_over]
    exact hgo1
  have hWcongr : is_within_board g1 (new_head g1) = is_within_board g2 (new_head g2) := by
    rw [hnh, is_within_board, is_within_board, h.width, h.height]
  by_cases hW : is_within_board g1 (new_head g1) = true
  case neg =>
    have hW1 : is_within_board g1 (new_head g1) = false := by
      revert hW
      cases is_within_board g1 (new_head g1) <;> simp
    have hW2 : is_within_board g2 (new_head g2) = false := by
      rw [← hWcongr]
      exact hW1
    rw [tick_of_wall hgo1 hW1, tick_of_wall hgo2 hW2]
    exact rel_end_game (rel_set_direction h) _
  case pos =>
  have hW2 : is_within_board g2 (new_head g2) = true := by
    rw [← hWcongr]
    exact hW
  by_cases hS : new_head g1 ∈ g1.snake
  · have hS2 : new_head g2 ∈ g2.snake := by
      rw [← hnh, ← h.snake]
      exact hS
    rw [tick_of_self hgo1 hW hS, tick_of_self hgo2 hW2 hS2]
    exact rel_end_game (rel_set_direction h) _
  have hS2 : new_head g2 ∉ g2.snake := by
    rw [← hnh, ← h.snake]
    exact hS
  by_cases hH : new_head g1 ∈ g1.hazards
  · have hH2 : new_head g2 ∈ g2.hazards := by
      rw [← hnh, ← h.hazards]
      exact hH
    rw [tick_of_hazard hgo1 hW hS hH, tick_of_hazard hgo2 hW2 hS2 hH2]
    exact rel_end_game (rel_set_direction h) _
  have hH2 : new_head g2 ∉ g2.hazards := by
    rw [← hnh, ← h.hazards]
    exact hH
  by_cases hF : new_head g1 ∈ g1.food
  · have hF2 : new_head g2 ∈ g2.food := by
      rw [← hnh, ← h.food]
      exact hF
    rw [tick_of_eat hgo1 hW hS hH hF, tick_of_eat hgo2 hW2 hS2 hH2 hF2]
    apply rel_add_food
    refine ⟨h.width, h.height, ?_, ?_, h.next_direction, h.next_direction, ?_, ?_,
      h.game_over, ?_, h.high_score, h.high_score_display, h.rand_idx,
      h.last_message, h.rand⟩
    · show remove_from_vec g1.free_positions (new_head g1)
        = remove_from_vec g2.free_positions (new_head g2)
      rw [h.free_positions, hnh]
    · show new_head g1 :: g1.snake = new_head g2 :: g2.snake
      rw [h.snake, hnh]
    · show g1.hazards ++ [(new_head g1 :: g1.snake).getLastI]
        = g2.hazards ++ [(new_head g2 :: g2.snake).getLastI]
      rw [h.hazards, h.snake, hnh]
    · show remove_from_vec g1.food (new_head g1) = remove_from_vec g2.food (new_head g2)
      rw [h.food, hnh]
    · show g1.score + 1 = g2.score + 1
      rw [h.score]
  · have hF2 : new_head g2 ∉ g2.food := by
      rw [← hnh, ← h.food]
      exact hF
    rw [tick_of_move hgo1 hW hS hH hF, tick_of_move hgo2 hW2 hS2 hH2 hF2]
    apply rel_pop_snake_tail
    refine ⟨h.width, h.height, ?_, ?_, h.next_direction, h.next_direction, h.hazards, h.food,
      h.game_over, h.score, h.high_score, h.high_score_display, h.rand_idx,
      h.last_message, h.rand⟩
    · show remove_from_vec g1.free_positions (new_head g1)
        = remove_from_vec g2.free_positions (new_head g2)
      rw [h.free_positions, hnh]
    · show new_head g1 :: g1.snake = new_head g2 :: g2.snake
      rw [h.snake, hnh]

theorem rel_change_direction {g1 g2 : SnakeGame} (h : Rel g1 g2) (d : Direction) :
    Rel (change_direction g1 d) (change_direction g2 d) := by
  rw [change_direction, change_direction, h.direction]
  by_cases hc : g2.direction = d ∨ g2.direction.opposite = d
  · rw [if_pos hc, if_pos hc]
    exact h
  · rw [if_neg hc, if_neg hc]
    exact ⟨h.width, h.height, h.free_positions, h.snake, rfl, rfl, h.hazards,
      h.food, h.game_over, h.score, h.high_score, h.high_score_display, h.rand_idx,
      h.last_message, h.rand⟩

theorem rel_clear3 {g1 g2 : SnakeGame} (h : Rel g1 g2) :
    Rel
      { g1 with snake := [⟨g1.width - 2, g1.height / 2⟩, ⟨g1.width - 1, g1.height / 2⟩],
                hazards := [], food := [],
                free_positions := remove_from_vec
                  (remove_from_vec (all_cells g1) ⟨g1.width - 1, g1.height / 2⟩)
                  ⟨g1.width - 2, g1.height / 2⟩ }
      { g2 with snake := [⟨g2.width - 2, g2.height / 2⟩, ⟨g2.width - 1, g2.height / 2⟩],
                hazards := [], food := [],
                free_positions := remove_from_vec
                  (remove_from_vec (all_cells g2) ⟨g2.width - 1, g2.height / 2⟩)
                  ⟨g2.width - 2, g2.height / 2⟩ } := by
  have hac : all_cells g1 = all_cells g2 := by
    rw [all_cells, all_cells, h.width, h.height]
  refine ⟨h.width, h.height, ?_, ?_, h.direction, h.next_direction, rfl, rfl,
    h.game_over, h.score, h.high_score, h.high_score_display, h.rand_idx,
    h.last_message, h.rand⟩
  · show remove_from_vec
        (remove_from_vec (all_cells g1) ⟨g1.width - 1, g1.height / 2⟩)
        ⟨g1.width - 2, g1.height / 2⟩
      = remove_from_vec
        (remove_from_vec (all_cells g2) ⟨g2.width - 1, g2.height / 2⟩)
        ⟨g2.width - 2, g2.height / 2⟩
    rw [hac, h.width, h.height]
  · show [(⟨g1.width - 2, g1.height / 2⟩ : Vector), ⟨g1.width - 1, g1.height / 2⟩]
      = [(⟨g2.width - 2, g2.height / 2⟩ : Vector), ⟨g2.width - 1, g2.height / 2⟩]
    rw [h.width, h.height]

theorem rel_restart {g1 g2 : SnakeGame} (h : Rel g1 g2) : Rel (restart g1) (restart g2) := by
  simp only [restart, clear_board_eq, push_snake_head]
  have hrel4 := rel_add_food 1 (rel_clear3 h)
  exact ⟨hrel4.width, hrel4.height, hrel4.free_positions, hrel4.snake, rfl, rfl,
    hrel4.hazards, hrel4.food, rfl, rfl, hrel4.high_score, hrel4.high_score,
    hrel4.rand_idx, hrel4.last_message, hrel4.rand⟩

theorem rel_new (width height : Int) (r1 r2 : Nat → Nat)
    (hr : ∀ k, r1 k % 65536 = r2 k % 65536) :
    Rel (new width height r1) (new width height r2) := by
  apply rel_restart
  exact ⟨rfl, rfl, rfl, rfl, rfl, rfl, rfl, rfl, rfl, rfl, rfl, rfl, rfl, rfl, hr⟩

theorem rel_apply_cmd {g1 g2 : SnakeGame} (h : Rel g1 g2) (c : Cmd) :
    Rel (apply_cmd c g1) (apply_cmd c g2) := by
  cases c with
  | tick => exact rel_tick h
  | change_direction d => exact rel_change_direction h d

theorem rel_run : ∀ (cs : List Cmd) {g1 g2 : SnakeGame}, Rel g1 g2 →
    Rel (run cs g1) (run cs g2) := by
  intro cs
  induction cs with
  | nil => intro g1 g2 h; exact h
  | cons c cs ih => intro g1 g2 h; exact ih (rel_apply_cmd h c)

theorem rel_obs {g1 g2 : SnakeGame} (h : Rel g1 g2) : obs g1 = obs g2 := by
  rw [obs, obs, h.snake, h.food, h.hazards, h.free_positions, h.score, h.game_over]


/-! ### Concrete PRNG streams used by the claims -/

/-! ### The claims -/

/-- C1 is false as stated: the state reached by one (eating) tick after
`new 5 5 seed12` is reachable, yet the four collection sizes sum to 26 on a
5×5 = 25 board, and the cell `(4,2)` lies in both the snake and the hazards,
so the collections are not pairwise disjoint. -/
theorem c1_counterexample :
    Reachable (tick (new 5 5 seed12)) ∧
    (tick (new 5 5 seed12)).snake.length + (tick (new 5 5 seed12)).food.length +
      (tick (new 5 5 seed12)).hazards.length +
      (tick (new 5 5 seed12)).free_positions.length = 26 ∧
    ((tick (new 5 5 seed12)).width * (tick (new 5 5 seed12)).height).toNat = 25 ∧
    (⟨4, 2⟩ : Vector) ∈ (tick (new 5 5 seed12)).snake ∧
    (⟨4, 2⟩ : Vector) ∈ (tick (new 5 5 seed12)).hazards :=
  ⟨Reachable.tick (Reachable.new 5 5 seed12 (by decide) (by decide)),
    by decide, by decide, by decide, by decide⟩

/-- C1 (amended): in every reachable state the free positions, the food and
the set union of snake and hazards partition the board, so
`|free| + |food| + |dedup (snake ++ hazards)| = width*height`; free positions
and food are disjoint from all other collections, while the snake and the
hazards may overlap (an eaten tail cell is in both until it is popped). -/
theorem c1_partition_amended {g : SnakeGame} (h : Reachable g) :
    g.free_positions.length + g.food.length + (g.snake ++ g.hazards).dedup.length
      = (g.width * g.height).toNat ∧
    List.Disjoint g.free_positions g.food ∧
    List.Disjoint g.free_positions g.snake ∧
    List.Disjoint g.free_positions g.hazards ∧
    List.Disjoint g.food g.snake ∧
    List.Disjoint g.food g.hazards := by
  have hv := reachable_inv h
  refine ⟨inv_card hv, ?_, ?_, ?_, ?_, ?_⟩
  · intro a ha hb
    exact hv.free_food a ha hb
  · intro a ha hb
    exact hv.free_snake a ha hb
  · intro a ha hb
    exact hv.free_haz a ha hb
  · intro a ha hb
    exact hv.food_snake a ha hb
  · intro a ha hb
    exact hv.food_haz a ha hb

/-- Witness for the amended C1 at the concrete reachable state `new 5 5 seed0`. -/
theorem c1_partition_amended_witness :
    (new 5 5 seed0).free_positions.length + (new 5 5 seed0).food.length +
      ((new 5 5 seed0).snake ++ (new 5 5 seed0).hazards).dedup.length
      = ((new 5 5 seed0).width * (new 5 5 seed0).height).toNat :=
  (c1_partition_amended (Reachable.new 5 5 seed0 (by decide) (by decide))).1

/-- C2: `restart` yields exactly the documented state: a two-cell snake with
head `(width-2, height/2)` and tail `(width-1, height/2)`, both off the free
list; no hazards; exactly one food item; both directions Left; the displayed
high score snapshotted from the running high score; score 0; terminal flag
cleared. -/
theorem c2_restart_spec {g : SnakeGame} (hw : 5 ≤ g.width) (hh : 3 ≤ g.height) :
    (restart g).snake = [⟨g.width - 2, g.height / 2⟩, ⟨g.width - 1, g.height / 2⟩] ∧
    (⟨g.width - 2, g.height / 2⟩ : Vector) ∉ (restart g).free_positions ∧
    (⟨g.width - 1, g.height / 2⟩ : Vector) ∉ (restart g).free_positions ∧
    (restart g).hazards = [] ∧
    (restart g).food.length = 1 ∧
    (restart g).direction = Direction.Left ∧
    (restart g).next_direction = Direction.Left ∧
    (restart g).high_score_display = (restart g).high_score ∧
    (restart g).score = 0 ∧
    (restart g).game_over = false := by
  have hA : (all_cells g).Nodup := nodup_all_cells g
  have hnd1 : (remove_from_vec (all_cells g) ⟨g.width - 1, g.height / 2⟩).Nodup :=
    remove_from_vec_nodup hA _
  have hnd2 : (remove_from_vec
      (remove_from_vec (all_cells g) ⟨g.width - 1, g.height / 2⟩)
      ⟨g.width - 2, g.height / 2⟩).Nodup := remove_from_vec_nodup hnd1 _
  have hsub : ∀ q, q ∈ swap_remove
      (remove_from_vec (remove_from_vec (all_cells g) ⟨g.width - 1, g.height / 2⟩)
        ⟨g.width - 2, g.height / 2⟩)
      (g.rand g.rand_idx % 65536 %
        (remove_from_vec (remove_from_vec (all_cells g) ⟨g.width - 1, g.height / 2⟩)
          ⟨g.width - 2, g.height / 2⟩).length) →
      q ≠ (⟨g.width - 2, g.height / 2⟩ : Vector) ∧
      q ≠ (⟨g.width - 1, g.height / 2⟩ : Vector) := by
    intro q hq
    rcases List.eq_nil_or_concat (remove_from_vec
        (remove_from_vec (all_cells g) ⟨g.width - 1, g.height / 2⟩)
        ⟨g.width - 2, g.height / 2⟩) with hnil | ⟨L, b, hcat⟩
    · rw [hnil] at hq
      simp [swap_remove] at hq
    · have hne : remove_from_vec
          (remove_from_vec (all_cells g) ⟨g.width - 1, g.height / 2⟩)
          ⟨g.width - 2, g.height / 2⟩ ≠ [] := by
        rw [hcat]
        simp
      have hlen : 0 < (remove_from_vec
          (remove_from_vec (all_cells g) ⟨g.width - 1, g.height / 2⟩)
          ⟨g.width - 2, g.height / 2⟩).length := List.length_pos.mpr hne
      have hidx := Nat.mod_lt (g.rand g.rand_idx % 65536) hlen
      have hq2 : q ∈ remove_from_vec
          (remove_from_vec (all_cells g) ⟨g.width - 1, g.height / 2⟩)
          ⟨g.width - 2, g.height / 2⟩ :=
        (List.eraseIdx_sublist _ _).mem ((swap_remove_perm _ _ hidx).mem_iff.mp hq)
      rw [remove_from_vec_mem_iff hnd1] at hq2
      have hq3 := hq2.2
      rw [remove_from_vec_mem_iff hA] at hq3
      exact ⟨hq2.1, hq3.1⟩
  rw [restart_char hw hh]
  refine ⟨rfl, ?_, ?_, rfl, rfl, rfl, rfl, rfl, rfl, rfl⟩
  · intro hmem
    exact absurd rfl (hsub _ hmem).1
  · intro hmem
    exact absurd rfl (hsub _ hmem).2

/-- Witness for C2 at the concrete game `new 5 5 seed0` (whose `restart` is
invoked on `initial_game 5 5 seed0`). -/
theorem c2_restart_spec_witness :
    (restart (initial_game 5 5 seed0)).score = 0 ∧
    (restart (initial_game 5 5 seed0)).game_over = false :=
  ⟨(c2_restart_spec (g := initial_game 5 5 seed0) (by decide) (by decide)).2.2.2.2.2.2.2.2.1,
   (c2_restart_spec (g := initial_game 5 5 seed0) (by decide) (by decide)).2.2.2.2.2.2.2.2.2⟩

/-- C3: from a running state the three game-over checks are applied in
documented order — wall first, then own body, then hazards — each ending the
game with its reason and leaving snake, food, hazards, free positions and
score untouched. -/
theorem c3_collision_order {g : SnakeGame} (hgo : g.game_over = false) :
    (is_within_board g (new_head g) = false →
      (tick g).game_over = true ∧ (tick g).last_message = some "avoid walls" ∧
      (tick g).snake = g.snake ∧ (tick g).food = g.food ∧
      (tick g).hazards = g.hazards ∧ (tick g).free_positions = g.free_positions ∧
      (tick g).score = g.score) ∧
    (is_within_board g (new_head g) = true → new_head g ∈ g.snake →
      (tick g).game_over = true ∧
      (tick g).last_message = some "avoid crashing into your own tail" ∧
      (tick g).snake = g.snake ∧ (tick g).food = g.food ∧
      (tick g).hazards = g.hazards ∧ (tick g).free_positions = g.free_positions ∧
      (tick g).score = g.score) ∧
    (is_within_board g (new_head g) = true → new_head g ∉ g.snake →
      new_head g ∈ g.hazards →
      (tick g).game_over = true ∧
      (tick g).last_message = some "don't slip on the leftovers" ∧
      (tick g).snake = g.snake ∧ (tick g).food = g.food ∧
      (tick g).hazards = g.hazards ∧ (tick g).free_positions = g.free_positions ∧
      (tick g).score = g.score) := by
  refine ⟨?_, ?_, ?_⟩
  · intro hW
    rw [tick_of_wall hgo hW]
    exact ⟨rfl, rfl, rfl, rfl, rfl, rfl, rfl⟩
  · intro hW hS
    rw [tick_of_self hgo hW hS]
    exact ⟨rfl, rfl, rfl, rfl, rfl, rfl, rfl⟩
  · intro hW hS hH
    rw [tick_of_hazard hgo hW hS hH]
    exact ⟨rfl, rfl, rfl, rfl, rfl, rfl, rfl⟩

/-- Witness for C3: three ticks into `new 5 5 seed0` the head sits at
`(0,2)` and the next tick exits the left wall. -/
theorem c3_collision_order_witness :
    (tick (ticks 3 (new 5 5 seed0))).last_message = some "avoid walls" :=
  (((c3_collision_order (g := ticks 3 (new 5 5 seed0)) (by decide)).1) (by decide)).2.1

/-- C7: spawning food on a board with no free position left ends the game
with the kill-screen reason and evaluates neither the modulo nor the
removal: food, the (empty) free list, and the PRNG cursor are untouched. -/
theorem c7_spawn_kill_screen {g : SnakeGame} {n : Nat} (hfree : g.free_positions = [])
    (hn : 1 ≤ n) :
    (add_food n g).game_over = true ∧
    (add_food n g).last_message = some "can't believe you made it this far" ∧
    (add_food n g).food = g.food ∧
    (add_food n g).free_positions = [] ∧
    (add_food n g).rand_idx = g.rand_idx := by
  induction n generalizing g with
  | zero => exact absurd hn (by omega)
  | succ n ih =>
    rw [add_food, if_pos (by rw [hfree]; rfl)]
    by_cases hn0 : n = 0
    · subst hn0
      exact ⟨rfl, rfl, rfl, by rw [show (add_food 0 (end_game g
          "can't believe you made it this far")).free_positions = g.free_positions from rfl,
          hfree], rfl⟩
    · have hres := ih (g := end_game g "can't believe you made it this far")
        (by rw [show (end_game g "can't believe you made it this far").free_positions
          = g.free_positions from rfl, hfree]) (by omega)
      exact ⟨hres.1, hres.2.1, hres.2.2.1, hres.2.2.2.1, hres.2.2.2.2⟩

/-- Witness for C7 on a concrete full board. -/
theorem c7_spawn_kill_screen_witness :
    (add_food 1 full_board_game).game_over = true :=
  (c7_spawn_kill_screen rfl (by omega)).1

/-- C8: `change_direction` with the current direction or its opposite leaves
the whole state — including the queued direction — unchanged, so a reversal
issued right before a tick cannot change the direction that tick commits. -/
theorem c8_change_direction_guard {g : SnakeGame} {d : Direction}
    (h : d = g.direction ∨ d = g.direction.opposite) :
    change_direction g d = g ∧
    tick (change_direction g (g.direction.opposite)) = tick g := by
  have hguard : ∀ d0 : Direction, d0 = g.direction ∨ d0 = g.direction.opposite →
      change_direction g d0 = g := by
    intro d0 h0
    rw [change_direction, if_pos]
    rcases h0 with h0 | h0
    · exact Or.inl h0.symm
    · exact Or.inr h0.symm
  have h2 : change_direction g (g.direction.opposite) = g := hguard _ (Or.inr rfl)
  exact ⟨hguard d h, by rw [h2]⟩

/-- Witness for C8 on the fresh game (current direction Left, opposite
Right). -/
theorem c8_change_direction_guard_witness :
    change_direction (new 5 5 seed0) Direction.Right = new 5 5 seed0 :=
  (c8_change_direction_guard (Or.inr (by decide))).1

/-- C9: once the terminal flag is set, any number of `tick` calls leaves
every field of the state exactly unchanged. -/
theorem c9_game_over_frozen {g : SnakeGame} (h : g.game_over = true) :
    ∀ n : Nat, ticks n g = g := by
  intro n
  induction n with
  | zero => rfl
  | succ n ih =>
    rw [ticks, tick_of_game_over h]
    exact ih

/-- Witness for C9 on a concrete terminal state. -/
theorem c9_game_over_frozen_witness :
    ticks 3 (ticks 4 (new 5 5 seed0)) = ticks 4 (new 5 5 seed0) :=
  c9_game_over_frozen (by decide) 3

/-- C4 is false as stated: with the constantly-zero PRNG stream the food of
a fresh `new 5 5` game is at `(0,0)`, not `(2,2)`, and after four ticks the
score is 0, not 1 (the game still ends on the left wall). -/
theorem c4_counterexample :
    (new 5 5 seed0).food = [⟨0, 0⟩] ∧
    (new 5 5 seed0).food ≠ [⟨2, 2⟩] ∧
    (ticks 4 (new 5 5 seed0)).score = 0 ∧
    (ticks 4 (new 5 5 seed0)).game_over = true ∧
    (ticks 4 (new 5 5 seed0)).last_message = some "avoid walls" :=
  ⟨by decide, by decide, by decide, by decide, by decide⟩

/-- C4 (amended): every `new 5 5` game starts with head `(3,2)`, tail
`(4,2)`, direction Left, and four ticks always end the game on the left
wall; the food cell is selected by the first PRNG draw, and when that draw
selects index 12 — the cell `(2,2)` — the four ticks eat it and the score
ends at 1. -/
theorem c4_new55_scenario :
    (∀ r : Nat → Nat,
      (new 5 5 r).snake = [⟨3, 2⟩, ⟨4, 2⟩] ∧
      (new 5 5 r).direction = Direction.Left ∧
      (ticks 4 (new 5 5 r)).game_over = true ∧
      (ticks 4 (new 5 5 r)).last_message = some "avoid walls") ∧
    ((new 5 5 seed12).food = [⟨2, 2⟩] ∧
      (ticks 1 (new 5 5 seed12)).score = 1 ∧
      (ticks 4 (new 5 5 seed12)).score = 1 ∧
      (ticks 4 (new 5 5 seed12)).game_over = true ∧
      (ticks 4 (new 5 5 seed12)).last_message = some "avoid walls") := by
  constructor
  · intro r
    have h0 : ScenState 3 22 (new 5 5 r) := scen_new55 r
    have h1 := scen_step h0 (by omega) (by omega)
    have h2 := scen_step h1 (by omega) (by omega)
    have h3 := scen_step h2 (by omega) (by omega)
    have hfin := scen_final h3 (by omega)
    refine ⟨rfl, rfl, ?_, ?_⟩
    · show (tick (tick (tick (tick (new 5 5 r))))).game_over = true
      exact hfin.1
    · show (tick (tick (tick (tick (new 5 5 r))))).last_message = some "avoid walls"
      exact hfin.2
  · exact ⟨by decide, by decide, by decide, by decide, by decide⟩

/-- C5: determinism — two games built over PRNG streams with the same 16-bit
outputs (in particular, from the same seed) and fed the same sequence of
`tick`/`change_direction` calls have identical snake, food, hazards, free
positions, score and terminal flag after every prefix of the sequence. -/
theorem c5_determinism {r1 r2 : Nat → Nat} (hseed : ∀ k, r1 k % 65536 = r2 k % 65536)
    (width height : Int) (cs : List Cmd) (n : Nat) :
    obs (run (cs.take n) (new width height r1))
      = obs (run (cs.take n) (new width height r2)) :=
  rel_obs (rel_run (cs.take n) (rel_new width height r1 r2 hseed))

/-- Witness for C5 with equal streams and a two-command script. -/
theorem c5_determinism_witness :
    obs (run ([Cmd.change_direction Direction.Up, Cmd.tick].take 2) (new 5 5 seed0))
      = obs (run ([Cmd.change_direction Direction.Up, Cmd.tick].take 2) (new 5 5 seed0)) :=
  c5_determinism (fun _ => rfl) 5 5 [Cmd.change_direction Direction.Up, Cmd.tick] 2

/-- C6: within a run the score never decreases across a `tick`, and a tick
from a running reachable state adds exactly 1 to the score precisely when
the newly computed head cell carries food; every other tick leaves it
unchanged. -/
theorem c6_score_monotone {g : SnakeGame} (h : Reachable g) :
    g.score ≤ (tick g).score ∧
    (g.game_over = false →
      (tick g).score = g.score + (if new_head g ∈ g.food then 1 else 0)) := by
  have hv := reachable_inv h
  by_cases hgo : g.game_over = true
  · rw [tick_of_game_over hgo]
    refine ⟨le_refl _, fun hfalse => ?_⟩
    rw [hgo] at hfalse
    cases hfalse
  have hgo1 : g.game_over = false := by
    revert hgo
    cases g.game_over <;> simp
  have hs : (tick g).score = g.score + (if new_head g ∈ g.food then 1 else 0) := by
    by_cases hW : is_within_board g (new_head g) = true
    case neg =>
      have hW1 : is_within_board g (new_head g) = false := by
        revert hW
        cases is_within_board g (new_head g) <;> simp
      have hnf : new_head g ∉ g.food := by
        intro hmem
        have hcov := (hv.cover (new_head g)).mp (Or.inr (Or.inl hmem))
        rw [hW1] at hcov
        cases hcov
      rw [tick_of_wall hgo1 hW1, if_neg hnf]
      show g.score = g.score + 0
      omega
    case pos =>
    by_cases hS : new_head g ∈ g.snake
    · have hnf : new_head g ∉ g.food := fun hmem => hv.food_snake _ hmem hS
      rw [tick_of_self hgo1 hW hS, if_neg hnf]
      show g.score = g.score + 0
      omega
    by_cases hH : new_head g ∈ g.hazards
    · have hnf : new_head g ∉ g.food := fun hmem => hv.food_haz _ hmem hH
      rw [tick_of_hazard hgo1 hW hS hH, if_neg hnf]
      show g.score = g.score + 0
      omega
    by_cases hF : new_head g ∈ g.food
    · rw [tick_of_eat hgo1 hW hS hH hF, if_pos hF]
      rw [(add_food_frame 1 _).2.2.1]
    · rw [tick_of_move hgo1 hW hS hH hF, if_neg hF]
      rw [(pop_snake_tail_frame _).2.2.1]
      show g.score = g.score + 0
      omega
  refine ⟨?_, fun _ => hs⟩
  rw [hs]
  by_cases hF : new_head g ∈ g.food
  · rw [if_pos hF]
    omega
  · rw [if_neg hF]
    omega

/-- Witness for C6 at the fresh game `new 5 5 seed0`. -/
theorem c6_score_monotone_witness :
    (new 5 5 seed0).score ≤ (tick (new 5 5 seed0)).score :=
  (c6_score_monotone (Reachable.new 5 5 seed0 (by decide) (by decide))).1

/-- C10: right after an eating tick the former tail cell is both the
snake's last segment and a hazard; it stays so through further eating ticks
and hazards only ever grow under `tick`; a subsequent clean non-eating move
pops exactly that cell off the snake while the hazards keep it; and the
hazard list really can hold the same coordinate twice when two adjacent food
items are eaten on consecutive ticks. -/
theorem c10_hazard_tail :
    (∀ g : SnakeGame, Reachable g → g.game_over = false → new_head g ∈ g.food →
      g.snake.getLastI ∈ (tick g).snake ∧ g.snake.getLastI ∈ (tick g).hazards ∧
      (tick g).snake.getLastI = g.snake.getLastI) ∧
    (∀ g : SnakeGame, Reachable g → g.game_over = false →
      is_within_board g (new_head g) = true → new_head g ∉ g.snake →
      new_head g ∉ g.hazards → new_head g ∉ g.food →
      g.snake.getLastI ∉ (tick g).snake ∧ (tick g).hazards = g.hazards) ∧
    (∀ (g : SnakeGame) (p : Vector), p ∈ g.hazards → p ∈ (tick g).hazards) ∧
    List.count (⟨4, 2⟩ : Vector) (ticks 2 (new 5 5 seed1211)).hazards = 2 := by
  refine ⟨?_, ?_, ?_, by decide⟩
  · intro g hreach hgo hF
    have hv := reachable_inv hreach
    have hsne : g.snake ≠ [] := by
      intro hnil
      have h2 := hv.len_snake
      rw [hnil] at h2
      simp at h2
    have hW : is_within_board g (new_head g) = true :=
      (hv.cover (new_head g)).mp (Or.inr (Or.inl hF))
    have hS : new_head g ∉ g.snake := fun hmem => hv.food_snake _ hF hmem
    have hH : new_head g ∉ g.hazards := fun hmem => hv.food_haz _ hF hmem
    rw [tick_of_eat hgo hW hS hH hF]
    rw [(add_food_frame 1 _).1, (add_food_frame 1 _).2.1]
    refine ⟨?_, ?_, ?_⟩
    · show g.snake.getLastI ∈ new_head g :: g.snake
      exact List.mem_cons_of_mem _ (getLastI_mem hsne)
    · show g.snake.getLastI ∈ g.hazards ++ [(new_head g :: g.snake).getLastI]
      rw [getLastI_cons_of_ne_nil _ hsne]
      simp
    · show (new_head g :: g.snake).getLastI = g.snake.getLastI
      exact getLastI_cons_of_ne_nil _ hsne
  · intro g hreach hgo hW hS hH hF
    have hv := reachable_inv hreach
    have hsne : g.snake ≠ [] := by
      intro hnil
      have h2 := hv.len_snake
      rw [hnil] at h2
      simp at h2
    rw [tick_of_move hgo hW hS hH hF]
    rw [(pop_snake_tail_frame _).2.2.2.2.2.2.2.2.2, (pop_snake_tail_frame _).2.1]
    constructor
    · show g.snake.getLastI ∉ ((new_head g :: g.snake).dropLast : List Vector)
      rw [List.dropLast_cons_of_ne_nil hsne]
      intro hmem
      rcases List.mem_cons.mp hmem with heq | hmem2
      · exact hS (heq ▸ getLastI_mem hsne)
      · exact getLastI_not_mem_dropLast hsne hv.nd_snake hmem2
    · rfl
  · intro g p hp
    by_cases hgo : g.game_over = true
    · rw [tick_of_game_over hgo]
      exact hp
    have hgo1 : g.game_over = false := by
      revert hgo
      cases g.game_over <;> simp
    by_cases hW : is_within_board g (new_head g) = true
    case neg =>
      have hW1 : is_within_board g (new_head g) = false := by
        revert hW
        cases is_within_board g (new_head g) <;> simp
      rw [tick_of_wall hgo1 hW1]
      exact hp
    case pos =>
    by_cases hS : new_head g ∈ g.snake
    · rw [tick_of_self hgo1 hW hS]
      exact hp
    by_cases hH : new_head g ∈ g.hazards
    · rw [tick_of_hazard hgo1 hW hS hH]
      exact hp
    by_cases hF : new_head g ∈ g.food
    · rw [tick_of_eat hgo1 hW hS hH hF]
      rw [(add_food_frame 1 _).2.1]
      show p ∈ g.hazards ++ [(new_head g :: g.snake).getLastI]
      exact List.mem_append_left _ hp
    · rw [tick_of_move hgo1 hW hS hH hF]
      rw [(pop_snake_tail_frame _).2.1]
      exact hp

/-- Witness for C10's universally quantified parts at the fresh `seed12`
game, whose first tick eats the food at `(2,2)`. -/
theorem c10_hazard_tail_witness :
    (new 5 5 seed12).snake.getLastI ∈ (tick (new 5 5 seed12)).snake ∧
    (new 5 5 seed12).snake.getLastI ∈ (tick (new 5 5 seed12)).hazards :=
  ⟨(c10_hazard_tail.1 (new 5 5 seed12)
      (Reachable.new 5 5 seed12 (by decide) (by decide)) (by decide) (by decide)).1,
   (c10_hazard_tail.1 (new 5 5 seed12)
      (Reachable.new 5 5 seed12 (by decide) (by decide)) (by decide) (by decide)).2.1⟩

end Slake
